import Mathlib

/-!
# BullyCPP: the PIC bootloader driver

A shallow embedding of `src/bullycpp/PicBootloaderDriver.cpp`.

* Machine integers are `Nat`, reduced modulo `2^w` where the source can wrap.
* The driver object is the record `Driver`; the serial port and the progress
  callback are the record `World`, which is passed through every operation.
* `PicBootloaderDriver.h`, `MemRow.h`, `PicDevice.h` and `util.h` are not part of
  the sources at hand.  Their compile-time constants are the fields of `Consts`;
  the row class and the hex reader are modelled from the specification and say
  so in their doc comments.
-/

namespace bullycpp

/-! ## Data model -/

/-- The device families, as listed by the name table of `parseDeviceLine`. -/
inductive Family where
  | dsPIC30F
  | dsPIC33F
  | PIC24H
  | PIC24F
  | PIC24FK
  | PIC24E
  | dsPIC33E
  deriving DecidableEq, Repr

/-- A catalog entry.  The constructor call in `parseDeviceLine` fixes the first six
fields; `revision` is written by `readDevice`; `configWord` is read by
`programHexFile`. -/
structure PicDevice where
  name : String
  id : Nat
  processID : Nat
  family : Family
  configPage : Nat
  smallRAM : Bool
  configWord : Nat
  revision : Nat
  deriving DecidableEq, Repr

/-- Modelled from the spec: the constants of the missing headers.  `PROGRAM_START`
and the row counts and row sizes of `MemRow` are compile-time constants; `NACK` and
`ACK` are the byte values of the two response sentinels of `Command`. -/
structure Consts where
  PROGRAM_START : Nat
  PM_SIZE : Nat
  EE_SIZE : Nat
  CM_SIZE : Nat
  PM30F_ROW_SIZE : Nat
  PIC24FK_ROW_SIZE : Nat
  PM33F_ROW_SIZE_SMALL : Nat
  PM33F_ROW_SIZE_LARGE : Nat
  NACK : Nat
  ACK : Nat
  deriving DecidableEq, Repr

/-- The commands the driver writes to the port. -/
inductive Command where
  | READ_ID
  | READ_VERSION
  | READ_PM
  | RESET
  | POR_RESET
  deriving DecidableEq, Repr

/-- The status of a progress event. -/
inductive Status where
  | Idle
  | Busy
  | Programming
  | Verifying
  | Error
  deriving DecidableEq, Repr

/-- The memory regions of a row. -/
inductive MemType where
  | Program
  | EEProm
  | Configuration
  deriving DecidableEq, Repr

/-- Modelled from the spec: the row class `MemRow` (its header and implementation are
missing).  A row covers the word addresses `[address, address + rowSize)`, holds one
16-bit word per address (`0xFFFF` while unwritten), knows whether `insertData` ever
wrote to it, and owns a byte buffer with three bytes per word. -/
structure MemRow where
  type : MemType
  address : Nat
  rowNumber : Nat
  rowSize : Nat
  data : List Nat
  empty : Bool
  buffer : List Nat
  deriving DecidableEq, Repr

namespace MemRow

/-- Modelled from the spec: the constructor `MemRow(type, base, row, family, rowsize)`.
The row starts at `base + row * rowsize`; the row size of a session is the one
computed by `programHexFile`. -/
def create (type : MemType) (startAddr rowNumber : Nat) (_family : Family)
    (pm33f_rowsize : Nat) : MemRow :=
  { type := type
    address := startAddr + rowNumber * pm33f_rowsize
    rowNumber := rowNumber
    rowSize := pm33f_rowsize
    data := List.replicate pm33f_rowsize 0xFFFF
    empty := true
    buffer := List.replicate (3 * pm33f_rowsize) 0 }

/-- Modelled from the spec: `getAddress()`. -/
def getAddress (r : MemRow) : Nat := r.address

/-- Modelled from the spec: `getType()`. -/
def getType (r : MemRow) : MemType := r.type

/-- Modelled from the spec: `getRowNumber()`. -/
def getRowNumber (r : MemRow) : Nat := r.rowNumber

/-- Modelled from the spec: `getRowSize()`. -/
def getRowSize (r : MemRow) : Nat := r.rowSize

/-- Modelled from the spec: `isEmpty()`, true iff `insertData` never wrote to the row. -/
def isEmpty (r : MemRow) : Bool := r.empty

/-- Modelled from the spec: `getByte(offset)`. -/
def getByte (r : MemRow) (offset : Nat) : Nat := r.buffer.getD offset 0 % 256

/-- Modelled from the spec: `insertData(address, word)`.  The row accepts the word
iff the address falls in its range; a refused word leaves the row as it was. -/
def insertData (r : MemRow) (address data : Nat) : Bool × MemRow :=
  if r.address ≤ address ∧ address < r.address + r.rowSize then
    (true, { r with data := r.data.set (address - r.address) data, empty := false })
  else
    (false, r)

/-- Modelled from the spec: `formatData()`, which lays every 16-bit word out as its
low byte, its high byte and one padding byte. -/
def formatData (r : MemRow) : MemRow :=
  { r with buffer := r.data.flatMap fun w => [w % 256, w / 256 % 256, 0] }

end MemRow

/-- What the driver does to the port, oldest first.  `sendData` and `readData` are
the two transfers of `MemRow`, recorded with the row they were called on. -/
inductive Wire where
  | clear
  | cmd (c : Command)
  | value (v : Nat)
  | setRTS (level : Bool)
  | setDTR (level : Bool)
  | sendData (row : MemRow)
  | readData (row : MemRow)
  deriving DecidableEq, Repr

/-- The outside of the driver: the serial port and the progress sink.
`input` is the stream of bytes the port delivers to the reads of the driver itself
and `rpos` the number of them already consumed; `readBack` is the answer of the
device to `MemRow::readData` (`none` for a negative acknowledgement, otherwise the
bytes of the row); `tx` is everything done to the port; `progress` is the list of
events handed to the callback. -/
structure World where
  input : Nat → Nat
  rpos : Nat
  readBack : MemRow → Option (List Nat)
  tx : List Wire
  progress : List (Status × Nat)

namespace World

/-- One action on the port is appended to the log. -/
def write (w : World) (x : Wire) : World := { w with tx := w.tx ++ [x] }

/-- The next byte of the port (`port >> uint8_t`). -/
def readByte (w : World) : Nat × World :=
  (w.input w.rpos % 256, { w with rpos := w.rpos + 1 })

/-- The next `n` bytes of the port (`port >> array`). -/
def readBytes (w : World) (n : Nat) : List Nat × World :=
  ((List.range n).map fun k => w.input (w.rpos + k) % 256, { w with rpos := w.rpos + n })

end World

/-- The driver object.  `currentDevice` is the pointer into `devices`, kept as the
index of the entry it points to; `none` is the null pointer.  `progressCallback`
tells whether a callback is installed. -/
structure Driver where
  devices : List PicDevice
  currentDevice : Option Nat
  configBitsEnabled : Bool
  firmwareVersion : Nat
  progressCallback : Bool
  deriving DecidableEq, Repr

namespace Driver

/-- The constructor: config bits enabled, firmware version 0, no device. -/
def new (devices : List PicDevice) (progressCallback : Bool) : Driver :=
  { devices := devices
    currentDevice := none
    configBitsEnabled := true
    firmwareVersion := 0
    progressCallback := progressCallback }

/-- The catalog entry `currentDevice` points to. -/
def current (d : Driver) : Option PicDevice :=
  d.currentDevice.bind fun i => d.devices[i]?

end Driver

/-- Why `programHexFile` gives up while it reads the hex stream. -/
inductive ParseAbort where
  | pageClash
  | dataClash
  | configClash
  | outOfRange
  | unknownRecord
  | malformedLine
  deriving DecidableEq, Repr

/-- How a call of the driver ends: it returns at its end, it returns early, or it
throws.  `nullDevice` is a use of `currentDevice` while it is null; `outOfFuel` is a
loop of the model that was given too little fuel. -/
inductive Exit where
  | returned
  | streamFailed
  | parseAbort (why : ParseAbort)
  | logicError
  | nullDevice
  | outOfFuel
  deriving DecidableEq, Repr

/-! ## The clash checker -/

/-- The helper `checkAddressClashFamily`: `std::find` over the six listed families,
compared with `end(families)`. -/
def checkAddressClashFamily (family : Family) : Bool :=
  let families := [Family.PIC24H, Family.dsPIC33F, Family.PIC24E, Family.dsPIC33E,
    Family.PIC24FK, Family.PIC24F]
  (families.find? fun f => f == family) == none

/-- The overload `checkAddressClash(address, family)`. -/
def checkAddressClash (address : Nat) (family : Family) : Bool :=
  !(checkAddressClashFamily family && address == 0x400)

/-- The overload `checkAddressClash(address, data, family)`. -/
def checkAddressClashData (c : Consts) (address data : Nat) (family : Family) : Bool :=
  !(checkAddressClashFamily family
    && (decide (address ≥ 0x200) && decide (address < c.PROGRAM_START) && data != 0xFFFF))

/-- The overload `checkAddressClash(address, data, family, configPage, configWord)`,
which reads `configBitsEnabled` of the driver. -/
def checkAddressClashConfig (d : Driver) (address data : Nat) (family : Family)
    (configPage configWord : Nat) : Bool :=
  if family = Family.PIC24F ∨ family = Family.PIC24E ∨ family = Family.dsPIC33E then
    if d.configBitsEnabled then true
    else if address ≥ configPage ∧ address < configWord ∧ data ≠ 0xFFFF then false
    else true
  else true

/-! ## The driver -/

/-- The method `giveProgress`: the event reaches the callback when there is one. -/
def giveProgress (d : Driver) (w : World) (status : Status) (percent : Nat) : World :=
  if d.progressCallback then { w with progress := w.progress ++ [(status, percent)] } else w

/-- The search loop of `readDevice`: the first entry with the given id and process id
gets the revision; the result is its index and the catalog after the write. -/
def readDeviceLoop (deviceID processID revision : Nat) :
    List PicDevice → Option (Nat × List PicDevice)
  | [] => none
  | device :: rest =>
    if device.id = deviceID ∧ device.processID = processID then
      some (0, { device with revision := revision } :: rest)
    else
      match readDeviceLoop deviceID processID revision rest with
      | some (i, rest') => some (i + 1, device :: rest')
      | none => none

/-- The method `readDevice`: the returned pointer, the driver and the world after. -/
def readDevice (d : Driver) (w : World) : Option PicDevice × Driver × World :=
  let w := giveProgress d w Status.Busy 0
  let w := w.write Wire.clear
  let w := w.write (Wire.cmd Command.READ_ID)
  let (inputData, w) := w.readBytes 8
  let deviceID := ((inputData.getD 1 0 <<< 8) ||| inputData.getD 0 0) % 65536
  let processID := (inputData.getD 5 0 >>> 4) % 65536
  let revision := ((inputData.getD 5 0 <<< 8) ||| inputData.getD 4 0) % 65536
  let w := giveProgress d w Status.Idle 0
  match readDeviceLoop deviceID processID revision d.devices with
  | some (i, devices) =>
    let d := { d with devices := devices, currentDevice := some i }
    (d.current, d, w)
  | none =>
    let d := { d with currentDevice := none }
    (none, d, w)

/-- The method `setMCLR`. -/
def setMCLR (w : World) (mclr : Bool) : World :=
  (w.write (Wire.setRTS mclr)).write (Wire.setDTR mclr)

/-- The method `shouldSkipRow`; `none` is the use of a null `currentDevice`. -/
def shouldSkipRow (c : Consts) (d : Driver) (thisRow : MemRow) (family : Family) :
    Option Bool :=
  let i := thisRow.getAddress
  if d.firmwareVersion ≥ 3 ∧ i < c.PROGRAM_START then some true
  else if family = Family.PIC24F ∨ family = Family.PIC24E ∨ family = Family.dsPIC33E then
    match d.current with
    | none => none
    | some dev => if i ≥ dev.configPage ∧ !thisRow.isEmpty then some true else some false
  else some false

/-- The method `getVersion`. -/
def getVersion (c : Consts) (d : Driver) (w : World) : Exit × Driver × World :=
  match d.current with
  | none => (Exit.logicError, d, w)
  | some dev =>
    let w := w.write (Wire.cmd Command.READ_VERSION)
    let (majorVersion, w) := w.readByte
    if majorVersion = c.NACK then
      let d := { d with firmwareVersion := 0 }
      let enabled := decide (dev.family = Family.PIC24H)
        || decide (dev.family = Family.PIC24FK) || decide (dev.family = Family.dsPIC33F)
      let d := { d with configBitsEnabled := enabled }
      (Exit.returned, d, w)
    else
      let d := { d with firmwareVersion := majorVersion }
      let (_minorVersion, w) := w.readByte
      let (ack, w) := w.readByte
      if ack ≠ c.ACK then (Exit.returned, d, w)
      else (Exit.returned, d, w)

/-! ## Reading the hex file -/

/-- Modelled from the spec: the value of one hexadecimal character. -/
def hexDigit (ch : Char) : Option Nat :=
  if 48 ≤ ch.toNat ∧ ch.toNat ≤ 57 then some (ch.toNat - 48)
  else if 65 ≤ ch.toNat ∧ ch.toNat ≤ 70 then some (ch.toNat - 55)
  else if 97 ≤ ch.toNat ∧ ch.toNat ≤ 102 then some (ch.toNat - 87)
  else none

/-- Modelled from the spec: `parseHex<T>` of the missing `util.h`, which reads the
next `digits` hexadecimal characters of the line, most significant first, and fails
when one of them is missing or is no hexadecimal character.  `acc` is the value read
so far.  The result is the value and the rest of the line. -/
def parseHexFrom (acc : Nat) : Nat → List Char → Option (Nat × List Char)
  | 0, s => some (acc, s)
  | _ + 1, [] => none
  | digits + 1, ch :: s =>
    match hexDigit ch with
    | none => none
    | some v => parseHexFrom (acc * 16 + v) digits s

/-- Modelled from the spec: `parseHex<uint8_t>` is `parseHex 2` and
`parseHex<uint16_t>` is `parseHex 4`. -/
def parseHex (digits : Nat) (s : List Char) : Option (Nat × List Char) :=
  parseHexFrom 0 digits s

/-- The loop over the rows for one word: both clash checks run before every
`insertData`; the loop stops at the first row that takes the word.  The result is
whether a row took it, and the rows after. -/
def insertLoop (c : Consts) (d : Driver) (family : Family) (dev : PicDevice)
    (address data : Nat) : List MemRow → Except ParseAbort (Bool × List MemRow)
  | [] => Except.ok (false, [])
  | row :: rest =>
    if !checkAddressClashData c address data family then
      Except.error ParseAbort.dataClash
    else if !checkAddressClashConfig d address data family dev.configPage dev.configWord then
      Except.error ParseAbort.configClash
    else
      match row.insertData address data with
      | (true, row') => Except.ok (true, row' :: rest)
      | (false, _) =>
        match insertLoop c d family dev address data rest with
        | Except.ok (inserted, rest') => Except.ok (inserted, row :: rest')
        | Except.error why => Except.error why

/-- The loop over the words of a data record.  `charCount` is the 8-bit counter and
`address` the 32-bit word address.  Every turn reads four characters, so the number
of turns is bounded by the fuel, which the caller takes from the length of the line;
`none` is the end of the fuel. -/
def wordLoop (c : Consts) (d : Driver) (family : Family) (dev : PicDevice)
    (byteCount : Nat) :
    Nat → Nat → Nat → List Char → List MemRow → Option (Except ParseAbort (List MemRow))
  | 0, _, _, _, _ => none
  | fuel + 1, charCount, address, lineStream, ppMemory =>
    if charCount < byteCount * 2 then
      match parseHex 4 lineStream with
      | none => some (Except.error ParseAbort.malformedLine)
      | some (data, lineStream) =>
        match insertLoop c d family dev address data ppMemory with
        | Except.error why => some (Except.error why)
        | Except.ok (false, _) => some (Except.error ParseAbort.outOfRange)
        | Except.ok (true, ppMemory) =>
          wordLoop c d family dev byteCount fuel ((charCount + 4) % 256)
            ((address + 1) % 2 ^ 32) lineStream ppMemory
    else some (Except.ok ppMemory)

/-- The body of the loop over the lines, for one line that is not empty: the new
extended address (as a 32-bit pattern) and the new rows. -/
def parseLine (c : Consts) (d : Driver) (family : Family) (dev : PicDevice)
    (line : List Char) (extAddr : Nat) (ppMemory : List MemRow) :
    Option (Except ParseAbort (Nat × List MemRow)) :=
  let lineStream := line.drop 1
  match parseHex 2 lineStream with
  | none => some (Except.error ParseAbort.malformedLine)
  | some (byteCount, lineStream) =>
    match parseHex 4 lineStream with
    | none => some (Except.error ParseAbort.malformedLine)
    | some (address, lineStream) =>
      match parseHex 2 lineStream with
      | none => some (Except.error ParseAbort.malformedLine)
      | some (recordType, lineStream) =>
        if recordType = 0 then
          let address := (address + extAddr) % 2 ^ 32 / 2
          if !checkAddressClash address family then
            some (Except.error ParseAbort.pageClash)
          else
            match wordLoop c d family dev byteCount (lineStream.length + 1) 0 address
                lineStream ppMemory with
            | none => none
            | some (Except.error why) => some (Except.error why)
            | some (Except.ok ppMemory) => some (Except.ok (extAddr, ppMemory))
        else if recordType = 1 then
          some (Except.ok (extAddr, ppMemory))
        else if recordType = 4 then
          match parseHex 4 lineStream with
          | none => some (Except.error ParseAbort.malformedLine)
          | some (v, _) => some (Except.ok ((v <<< 16) % 2 ^ 32, ppMemory))
        else
          some (Except.error ParseAbort.unknownRecord)

/-- The loop over the lines of the hex stream; empty lines are passed over. -/
def parseLines (c : Consts) (d : Driver) (family : Family) (dev : PicDevice) :
    List String → Nat → List MemRow → Option (Except ParseAbort (List MemRow))
  | [], _, ppMemory => some (Except.ok ppMemory)
  | line :: rest, extAddr, ppMemory =>
    if line.data = [] then parseLines c d family dev rest extAddr ppMemory
    else
      match parseLine c d family dev line.data extAddr ppMemory with
      | none => none
      | some (Except.error why) => some (Except.error why)
      | some (Except.ok (extAddr, ppMemory)) =>
        parseLines c d family dev rest extAddr ppMemory

/-! ## Programming, verifying, resetting -/

namespace MemRow

/-- Modelled from the spec: `sendData(port)`, the transfer of the row to the device. -/
def sendData (r : MemRow) (w : World) : World := w.write (Wire.sendData r)

/-- Modelled from the spec: `readData(port)`, which asks the device for the row and
fills the buffer with the answer; it returns false on a negative acknowledgement. -/
def readData (r : MemRow) (w : World) : Bool × MemRow × World :=
  let w := w.write (Wire.readData r)
  match w.readBack r with
  | none => (false, r, w)
  | some bytes => (true, { r with buffer := bytes }, w)

end MemRow

/-- The rows of a session, in the order of the three construction loops. -/
def buildMemory (c : Consts) (family : Family) (pm33f_rowsize : Nat) : List MemRow :=
  ((List.range c.PM_SIZE).map fun row =>
      MemRow.create MemType.Program 0x000000 row family pm33f_rowsize)
  ++ ((List.range c.EE_SIZE).map fun row =>
      MemRow.create MemType.EEProm 0x7FF000 row family pm33f_rowsize)
  ++ ((List.range c.CM_SIZE).map fun row =>
      MemRow.create MemType.Configuration 0xF80000 row family pm33f_rowsize)

/-- The programming loop.  `nonEmptyRowCount` is the running count; the result is the
count and the world after, or `none` when `shouldSkipRow` met a null device. -/
def programLoop (c : Consts) (d : Driver) (family : Family) (nonEmptyRows : Nat) :
    List MemRow → Nat → World → Option (Nat × World)
  | [], nonEmptyRowCount, w => some (nonEmptyRowCount, w)
  | row :: rest, nonEmptyRowCount, w =>
    let nonEmptyRowCount := if !row.isEmpty then nonEmptyRowCount + 1 else nonEmptyRowCount
    let w := if !row.isEmpty then
        giveProgress d w Status.Programming (100 * nonEmptyRowCount / nonEmptyRows)
      else w
    if row.getType = MemType.Configuration ∧ !d.configBitsEnabled then
      programLoop c d family nonEmptyRows rest nonEmptyRowCount w
    else
      match shouldSkipRow c d row family with
      | none => none
      | some skip =>
        let w := if !skip then row.sendData w else w
        programLoop c d family nonEmptyRows rest nonEmptyRowCount w

/-- The 24-bit value the verification expects for word `index`, from the snapshot. -/
def expectedWord (snapshot : MemRow) (index : Nat) : Nat :=
  ((snapshot.getByte (3 * index + 2) <<< 16) + (snapshot.getByte (3 * index + 1) <<< 8)
    + snapshot.getByte (3 * index)) % 2 ^ 32

/-- The 24-bit value the verification got for word `index`, from the row read back. -/
def gotWord (row : MemRow) (index : Nat) : Nat :=
  ((row.getByte (3 * index) <<< 16) + (row.getByte (3 * index + 1) <<< 8)
    + row.getByte (3 * index + 2)) % 2 ^ 32

/-- The comparison loop of one row: true iff no word differs. -/
def compareRow (row snapshot : MemRow) : Bool :=
  (List.range row.getRowSize).all fun index => expectedWord snapshot index == gotWord row index

/-- The verification loop over the program rows, each paired with its snapshot.  The
result is the rows after the loop, the running count, `verifyOK` and the world, or
`none` when `shouldSkipRow` met a null device. -/
def verifyLoop (c : Consts) (d : Driver) (family : Family) (nonEmptyProgramRows : Nat) :
    List (MemRow × MemRow) → Nat → World → Option (List MemRow × Nat × Bool × World)
  | [], nonEmptyProgramRowCount, w => some ([], nonEmptyProgramRowCount, true, w)
  | (row, snapshot) :: rest, nonEmptyProgramRowCount, w =>
    let nonEmptyProgramRowCount :=
      if !row.isEmpty then nonEmptyProgramRowCount + 1 else nonEmptyProgramRowCount
    let w := if !row.isEmpty then
        giveProgress d w Status.Verifying (100 * nonEmptyProgramRowCount / nonEmptyProgramRows)
      else w
    match shouldSkipRow c d row family with
    | none => none
    | some true =>
      match verifyLoop c d family nonEmptyProgramRows rest nonEmptyProgramRowCount w with
      | none => none
      | some (rows, n, verifyOK, w) => some (row :: rows, n, verifyOK, w)
    | some false =>
      match row.readData w with
      | (true, row, w) =>
        if !compareRow row snapshot then
          some (row :: rest.map Prod.fst, nonEmptyProgramRowCount, false, w)
        else
          match verifyLoop c d family nonEmptyProgramRows rest nonEmptyProgramRowCount w with
          | none => none
          | some (rows, n, verifyOK, w) => some (row :: rows, n, verifyOK, w)
      | (false, row, w) =>
        match verifyLoop c d family nonEmptyProgramRows rest nonEmptyProgramRowCount w with
        | none => none
        | some (rows, n, verifyOK, w) => some (row :: rows, n, verifyOK, w)

/-- The loop that sends the configuration rows once more before the reset. -/
def resendConfig : List MemRow → World → World
  | [], w => w
  | row :: rest, w =>
    if row.getType = MemType.Configuration then resendConfig rest (row.sendData w)
    else resendConfig rest w

/-- The part of `programHexFile` after the hex stream was read without error. -/
def programStage (c : Consts) (d : Driver) (w : World) (family : Family) (dev : PicDevice)
    (ppMemory : List MemRow) : Exit × Driver × World :=
  if d.firmwareVersion < 3 then
    let rowSize :=
      if family = Family.dsPIC30F then c.PM30F_ROW_SIZE
      else if dev.family = Family.PIC24FK then c.PIC24FK_ROW_SIZE
      else if dev.smallRAM then c.PM33F_ROW_SIZE_SMALL
      else c.PM33F_ROW_SIZE_LARGE
    let w := (((w.write (Wire.cmd Command.READ_PM)).write (Wire.value 0)).write
      (Wire.value 0)).write (Wire.value 0)
    let (_data, w) := w.readBytes (rowSize * 3)
    (Exit.logicError, d, w)
  else
    let ppMemory := ppMemory.map MemRow.formatData
    let nonEmptyRows := (ppMemory.filter fun row => !row.isEmpty).length
    let nonEmptyProgramRows := (ppMemory.filter fun row =>
      !row.isEmpty && decide (row.getType = MemType.Program)).length
    let ppMemoryVerify := ppMemory
    match programLoop c d family nonEmptyRows ppMemory 0 w with
    | none => (Exit.nullDevice, d, w)
    | some (_, w) =>
      match verifyLoop c d family nonEmptyProgramRows
          ((ppMemory.take c.PM_SIZE).zip (ppMemoryVerify.take c.PM_SIZE)) 0 w with
      | none => (Exit.nullDevice, d, w)
      | some (rows, _, verifyOK, w) =>
        let ppMemory := rows ++ ppMemory.drop c.PM_SIZE
        let w := if !verifyOK then giveProgress d w Status.Error 0 else w
        let w := if d.configBitsEnabled then resendConfig ppMemory w else w
        let w := if d.firmwareVersion = 0 ∨ d.configBitsEnabled then
            w.write (Wire.cmd Command.RESET)
          else w.write (Wire.cmd Command.POR_RESET)
        let w := if verifyOK then giveProgress d w Status.Idle 100 else w
        (Exit.returned, d, w)

/-- The method `programHexFile(std::istream&)`.  The stream is the list of its lines,
or `none` when it is in a failed state at the start. -/
def programHexFile (c : Consts) (d : Driver) (w : World) (hexFile : Option (List String)) :
    Exit × Driver × World :=
  match getVersion c d w with
  | (Exit.returned, d, w) =>
    match d.current with
    | none => (Exit.nullDevice, d, w)
    | some dev =>
      let family := dev.family
      let pm33f_rowsize :=
        if family = Family.PIC24FK then c.PIC24FK_ROW_SIZE
        else if dev.smallRAM then c.PM33F_ROW_SIZE_SMALL
        else c.PM33F_ROW_SIZE_LARGE
      let ppMemory := buildMemory c family pm33f_rowsize
      match hexFile with
      | none => (Exit.streamFailed, d, w)
      | some lines =>
        match parseLines c d family dev lines 0 ppMemory with
        | none => (Exit.outOfFuel, d, w)
        | some (Except.error why) => (Exit.parseAbort why, d, w)
        | some (Except.ok ppMemory) => programStage c d w family dev ppMemory
  | (e, d, w) => (e, d, w)

/-! ## Concrete values used by the closed statements

The constants follow the comment of the clash check (`PROGRAM_START` is `0xC00`);
the image is kept small so that the statements can be evaluated. -/

/-- A set of constants: eight program rows, one EEPROM row, one configuration row. -/
def sampleConsts : Consts :=
  { PROGRAM_START := 0xC00
    PM_SIZE := 8
    EE_SIZE := 1
    CM_SIZE := 1
    PM30F_ROW_SIZE := 32
    PIC24FK_ROW_SIZE := 32
    PM33F_ROW_SIZE_SMALL := 64
    PM33F_ROW_SIZE_LARGE := 512
    NACK := 0
    ACK := 1 }

/-- A catalog entry of the given family with id `0x1234` and process id 5. -/
def sampleDevice (family : Family) : PicDevice :=
  { name := "sample"
    id := 0x1234
    processID := 5
    family := family
    configPage := 0x5000
    smallRAM := false
    configWord := 0x5400
    revision := 0 }

/-- A driver whose catalog is the one sample entry, already identified. -/
def sampleDriver (family : Family) : Driver :=
  { Driver.new [sampleDevice family] true with currentDevice := some 0 }

/-- A world whose port delivers the given bytes (then zeros) and whose device
answers every `readData` with a negative acknowledgement. -/
def sampleWorld (bytes : List Nat) : World :=
  { input := fun i => bytes.getD i 0
    rpos := 0
    readBack := fun _ => none
    tx := []
    progress := [] }

/-! ## Auxiliary notions of the statements -/

/-- Byte `k` of the answer the port is about to deliver. -/
def responseByte (w : World) (k : Nat) : Nat := w.input (w.rpos + k) % 256

/-- The region and the first address of a row. -/
def rowKey (r : MemRow) : MemType × Nat := (r.type, r.address)

/-- The row size `programHexFile` computes for the session (`pm33f_rowsize`). -/
def sessionRowSize (c : Consts) (dev : PicDevice) : Nat :=
  if dev.family = Family.PIC24FK then c.PIC24FK_ROW_SIZE
  else if dev.smallRAM then c.PM33F_ROW_SIZE_SMALL
  else c.PM33F_ROW_SIZE_LARGE

/-- The kinds of port actions of the stage after parsing, with what is known about
each: the four values of the legacy read, a row sent by the programming loop, a
configuration row sent once more, a row read back, one of the two resets. -/
def StageWire (c : Consts) (d : Driver) (family : Family) (ppMemory : List MemRow)
    (x : Wire) : Prop :=
  (d.firmwareVersion < 3 ∧ (x = Wire.cmd Command.READ_PM ∨ x = Wire.value 0))
  ∨ (3 ≤ d.firmwareVersion ∧
      ((∃ row, x = Wire.sendData row ∧ shouldSkipRow c d row family = some false)
      ∨ (∃ row, x = Wire.sendData row ∧ row.getType = MemType.Configuration
          ∧ rowKey row ∈ ppMemory.map rowKey)
      ∨ (∃ row, x = Wire.readData row)
      ∨ x = Wire.cmd Command.RESET
      ∨ x = Wire.cmd Command.POR_RESET))

/-- An abort that is neither of the two bootloader clashes. -/
def NoBootClash (why : ParseAbort) : Prop :=
  why ≠ ParseAbort.pageClash ∧ why ≠ ParseAbort.dataClash

/-- The words the word loop inserts, each with its word address, in the order of the
insertions: one entry for every turn of `wordLoop` in which a row took the word. -/
def wordLoopLog (c : Consts) (d : Driver) (family : Family) (dev : PicDevice)
    (byteCount : Nat) :
    Nat → Nat → Nat → List Char → List MemRow → List (Nat × Nat)
  | 0, _, _, _, _ => []
  | fuel + 1, charCount, address, lineStream, ppMemory =>
    if charCount < byteCount * 2 then
      match parseHex 4 lineStream with
      | none => []
      | some (data, lineStream) =>
        match insertLoop c d family dev address data ppMemory with
        | Except.ok (true, ppMemory) =>
          (address, data) :: wordLoopLog c d family dev byteCount fuel
            ((charCount + 4) % 256) ((address + 1) % 2 ^ 32) lineStream ppMemory
        | _ => []
    else []

/-- The words `parseLine` inserts for one line: those of the word loop of a data
record that passed the page check, none for any other line. -/
def parseLineLog (c : Consts) (d : Driver) (family : Family) (dev : PicDevice)
    (line : List Char) (extAddr : Nat) (ppMemory : List MemRow) : List (Nat × Nat) :=
  match parseHex 2 (line.drop 1) with
  | none => []
  | some (byteCount, lineStream) =>
    match parseHex 4 lineStream with
    | none => []
    | some (address, lineStream) =>
      match parseHex 2 lineStream with
      | none => []
      | some (recordType, lineStream) =>
        if recordType = 0 then
          if !checkAddressClash ((address + extAddr) % 2 ^ 32 / 2) family then []
          else
            wordLoopLog c d family dev byteCount (lineStream.length + 1) 0
              ((address + extAddr) % 2 ^ 32 / 2) lineStream ppMemory
        else []

/-- The words `parseLines` inserts, line after line, up to the line that aborts. -/
def parseLinesLog (c : Consts) (d : Driver) (family : Family) (dev : PicDevice) :
    List String → Nat → List MemRow → List (Nat × Nat)
  | [], _, _ => []
  | line :: rest, extAddr, ppMemory =>
    if line.data = [] then parseLinesLog c d family dev rest extAddr ppMemory
    else
      parseLineLog c d family dev line.data extAddr ppMemory ++
        match parseLine c d family dev line.data extAddr ppMemory with
        | some (Except.ok (extAddr, ppMemory)) =>
          parseLinesLog c d family dev rest extAddr ppMemory
        | _ => []

/-- The words one call of `programHexFile` inserts into its memory image. -/
def insertedWords (c : Consts) (d : Driver) (w : World) (hexFile : Option (List String)) :
    List (Nat × Nat) :=
  match getVersion c d w with
  | (Exit.returned, d, _) =>
    match d.current, hexFile with
    | some dev, some lines =>
      parseLinesLog c d dev.family dev lines 0
        (buildMemory c dev.family (sessionRowSize c dev))
    | _, _ => []
  | _ => []

/-- The image after one word went into the first row that accepts its address. -/
def insertFirst (address data : Nat) : List MemRow → List MemRow
  | [] => []
  | row :: rest =>
    if (row.insertData address data).1 then (row.insertData address data).2 :: rest
    else row :: insertFirst address data rest

/-- The image after the words of a list went in, one after the other. -/
def replay : List (Nat × Nat) → List MemRow → List MemRow
  | [], ppMemory => ppMemory
  | (address, data) :: rest, ppMemory => replay rest (insertFirst address data ppMemory)

/-- The next `count` words of four hexadecimal characters of a line, paired with
the consecutive 32-bit word addresses from `address` on. -/
def takeWords : Nat → Nat → List Char → Option (List (Nat × Nat))
  | 0, _, _ => some []
  | count + 1, address, lineStream =>
    match parseHex 4 lineStream with
    | none => none
    | some (data, lineStream) =>
      match takeWords count ((address + 1) % 2 ^ 32) lineStream with
      | none => none
      | some rest => some ((address, data) :: rest)

/-- The three fields at the start of a line, as `parseLine` reads them: the byte
count, the raw address and the record type, with the rest of the line. -/
def parseHeader (line : List Char) : Option (Nat × Nat × Nat × List Char) :=
  match parseHex 2 (line.drop 1) with
  | none => none
  | some (byteCount, lineStream) =>
    match parseHex 4 lineStream with
    | none => none
    | some (address, lineStream) =>
      match parseHex 2 lineStream with
      | none => none
      | some (recordType, lineStream) => some (byteCount, address, recordType, lineStream)

/-- The test the programming loop makes on a row before `sendData`: the row is not a
configuration row while config bits are disabled, and `shouldSkipRow` is false. -/
def programLoopSends (c : Consts) (d : Driver) (family : Family) (row : MemRow) : Bool :=
  !(decide (row.getType = MemType.Configuration) && !d.configBitsEnabled)
    && decide (shouldSkipRow c d row family = some false)

/-- Whether a call of `getVersion` in the state `d` gets the NACK sentinel as the
answer to `READ_VERSION`. -/
def nackAnswered (c : Consts) (d : Driver) (w : World) : Bool :=
  d.current.isSome && decide (w.input w.rpos % 256 = c.NACK)

/-- The session states reachable from a freshly constructed driver by calls of
`readDevice`, `getVersion` and `programHexFile` with arbitrary worlds.  The flag
tells whether one of the calls so far got NACK as the answer to `READ_VERSION`. -/
inductive Reach (c : Consts) (devices : List PicDevice) (callback : Bool) :
    Bool → Driver → Prop where
  | init : Reach c devices callback false (Driver.new devices callback)
  | readDevice {b : Bool} {d : Driver} (w : World) :
    Reach c devices callback b d → Reach c devices callback b (readDevice d w).2.1
  | getVersion {b : Bool} {d : Driver} (w : World) :
    Reach c devices callback b d →
    Reach c devices callback (b || nackAnswered c d w) (getVersion c d w).2.1
  | programHexFile {b : Bool} {d : Driver} (w : World) (hexFile : Option (List String)) :
    Reach c devices callback b d →
    Reach c devices callback (b || nackAnswered c d w) (programHexFile c d w hexFile).2.1

/-- The state of a fresh driver with one PIC24F entry after `readDevice` found the
entry and `getVersion` got NACK as its answer. -/
def sampleAfterNack : Driver :=
  (getVersion sampleConsts
    (readDevice (Driver.new [sampleDevice Family.PIC24F] true)
      (sampleWorld [0x34, 0x12, 0x00, 0x00, 0x07, 0x56, 0x00, 0x00])).2.1
    (sampleWorld [0])).2.1

/-- The events of a programming phase over `n` non-empty rows: the k-th of them
carries `100 * k / n`. -/
def programmingEvents (n : Nat) : List (Status × Nat) :=
  (List.range n).map fun j => (Status.Programming, 100 * (j + 1) / n)

/-- The events of a verifying phase that met `m` non-empty rows, the divisor being
`total`. -/
def verifyingEvents (m total : Nat) : List (Status × Nat) :=
  (List.range m).map fun j => (Status.Verifying, 100 * (j + 1) / total)

/-- The number of rows that are not empty. -/
def countNonEmpty (rows : List MemRow) : Nat :=
  (rows.filter fun row => !row.isEmpty).length

/-- The extended address the line loop holds after the lines of a list, when it was
entered with `extAddr`; a line that aborts leaves it as it is. -/
def parseLinesExt (c : Consts) (d : Driver) (family : Family) (dev : PicDevice) :
    List String → Nat → List MemRow → Nat
  | [], extAddr, _ => extAddr
  | line :: rest, extAddr, ppMemory =>
    if line.data = [] then parseLinesExt c d family dev rest extAddr ppMemory
    else
      match parseLine c d family dev line.data extAddr ppMemory with
      | some (Except.ok (extAddr, ppMemory)) =>
        parseLinesExt c d family dev rest extAddr ppMemory
      | _ => extAddr

/-! ## The clash checker: what the three predicates decide -/

/-- The family helper is true for `dsPIC30F` alone: the six listed families are the
ones `std::find` finds. -/
theorem checkAddressClashFamily_eq (family : Family) :
    checkAddressClashFamily family = decide (family = Family.dsPIC30F) := by
  cases family <;> rfl

/-- C1.  The reserved-word check `checkAddressClash(address, data, family)` of the
source returns false exactly for the family `dsPIC30F` with
`0x200 <= address < PROGRAM_START` and `data != 0xFFFF`; for each of the six listed
families it returns true at every address and data word, for instance for `PIC24H`
at address `0x200` with data `0`, where the claim asks for false. -/
theorem checkAddressClashData_only_dsPIC30F :
    (∀ (c : Consts) (address data : Nat) (family : Family),
      checkAddressClashData c address data family = false ↔
        (family = Family.dsPIC30F ∧ 0x200 ≤ address ∧ address < c.PROGRAM_START
          ∧ data ≠ 0xFFFF))
    ∧ (∀ c : Consts, checkAddressClashData c 0x200 0 Family.PIC24H = true)
    ∧ checkAddressClashData sampleConsts 0x200 0 Family.dsPIC30F = false := by
  refine ⟨?_, ?_, by decide⟩
  · intro c address data family
    simp only [checkAddressClashData, checkAddressClashFamily_eq]
    cases family <;> simp [and_assoc]
  · intro c
    simp [checkAddressClashData, checkAddressClashFamily_eq]

/-- C2.  The page check `checkAddressClash(address, family)` of the source returns
false exactly for the family `dsPIC30F` at address `0x400`; for each of the six
listed families it returns true at every address, for instance for `PIC24H` at
`0x400`, where the claim asks for false. -/
theorem checkAddressClash_only_dsPIC30F :
    (∀ (address : Nat) (family : Family),
      checkAddressClash address family = false ↔
        (family = Family.dsPIC30F ∧ address = 0x400))
    ∧ checkAddressClash 0x400 Family.PIC24H = true
    ∧ checkAddressClash 0x400 Family.dsPIC30F = false := by
  refine ⟨?_, by decide, by decide⟩
  intro address family
  simp only [checkAddressClash, checkAddressClashFamily_eq]
  cases family <;> simp

/-- C7.  The configuration-region check returns false exactly when the family is
one of PIC24F, PIC24E, dsPIC33E, `configBitsEnabled` is false,
`configPage <= address < configWord` and `data != 0xFFFF`; in every other case it
returns true. -/
theorem checkAddressClashConfig_spec (d : Driver) (address data : Nat) (family : Family)
    (configPage configWord : Nat) :
    (checkAddressClashConfig d address data family configPage configWord = false ↔
      ((family = Family.PIC24F ∨ family = Family.PIC24E ∨ family = Family.dsPIC33E)
        ∧ d.configBitsEnabled = false
        ∧ configPage ≤ address ∧ address < configWord ∧ data ≠ 0xFFFF))
    ∧ (checkAddressClashConfig d address data family configPage configWord = true ↔
      ¬ ((family = Family.PIC24F ∨ family = Family.PIC24E ∨ family = Family.dsPIC33E)
        ∧ d.configBitsEnabled = false
        ∧ configPage ≤ address ∧ address < configWord ∧ data ≠ 0xFFFF)) := by
  have key : checkAddressClashConfig d address data family configPage configWord = false ↔
      ((family = Family.PIC24F ∨ family = Family.PIC24E ∨ family = Family.dsPIC33E)
        ∧ d.configBitsEnabled = false
        ∧ configPage ≤ address ∧ address < configWord ∧ data ≠ 0xFFFF) := by
    unfold checkAddressClashConfig
    by_cases hf : family = Family.PIC24F ∨ family = Family.PIC24E ∨ family = Family.dsPIC33E
    · cases hc : d.configBitsEnabled
      · by_cases hr : address ≥ configPage ∧ address < configWord ∧ data ≠ 0xFFFF
        · simp [hf, hr]
        · simp only [hf, hr, if_true, if_false, true_and]
          simp
      · simp [hf]
    · simp [hf]
  refine ⟨key, ?_⟩
  rw [← key]
  cases checkAddressClashConfig d address data family configPage configWord <;> simp

/-! ## Skipping rows, the firmware version, the device identification -/

/-- C6.  With an identified device, `shouldSkipRow(row, family)` returns true if and
only if (the firmware version is at least 3 and the address of the row is below
`PROGRAM_START`) or (the family is one of PIC24F, PIC24E, dsPIC33E and the address of
the row is at or past the `configPage` of the device and the row is not empty). -/
theorem shouldSkipRow_spec (c : Consts) (d : Driver) (thisRow : MemRow) (family : Family)
    (dev : PicDevice) (h : d.current = some dev) :
    shouldSkipRow c d thisRow family = some (decide
      ((d.firmwareVersion ≥ 3 ∧ thisRow.getAddress < c.PROGRAM_START)
        ∨ ((family = Family.PIC24F ∨ family = Family.PIC24E ∨ family = Family.dsPIC33E)
          ∧ thisRow.getAddress ≥ dev.configPage ∧ thisRow.isEmpty = false))) := by
  unfold shouldSkipRow
  by_cases h1 : d.firmwareVersion ≥ 3 ∧ thisRow.getAddress < c.PROGRAM_START
  · simp [h1]
  · by_cases hf : family = Family.PIC24F ∨ family = Family.PIC24E ∨ family = Family.dsPIC33E
    · by_cases h2 : thisRow.getAddress ≥ dev.configPage ∧ thisRow.isEmpty = false
      · simp [h1, hf, h, h2]
      · simp only [h1, hf, h, if_false, if_true]
        have h2' : ¬ (thisRow.getAddress ≥ dev.configPage ∧ (!thisRow.isEmpty) = true) := by
          simpa using h2
        simp [h2', h2]
    · simp [h1, hf]

/-- The witness of C6: a version-3 driver for a PIC24F device skips the first
program row. -/
theorem shouldSkipRow_spec_witness :
    ({ sampleDriver Family.PIC24F with firmwareVersion := 3 } : Driver).current
        = some (sampleDevice Family.PIC24F)
    ∧ shouldSkipRow sampleConsts { sampleDriver Family.PIC24F with firmwareVersion := 3 }
        (MemRow.create MemType.Program 0 0 Family.PIC24F 64) Family.PIC24F = some true :=
  ⟨rfl, by
    rw [shouldSkipRow_spec sampleConsts { sampleDriver Family.PIC24F with firmwareVersion := 3 }
      (MemRow.create MemType.Program 0 0 Family.PIC24F 64) Family.PIC24F
      (sampleDevice Family.PIC24F) rfl]
    decide⟩

/-- C10.  With an identified device, `getVersion` writes `READ_VERSION` and reads the
first byte.  When that byte is the NACK sentinel, the firmware version becomes 0,
`configBitsEnabled` becomes true exactly for the families PIC24H, PIC24FK and
dsPIC33F, and no further byte is read.  Otherwise the firmware version becomes that
byte, exactly two more bytes are read, and `configBitsEnabled` keeps its value,
whatever the third byte is.  The catalog and the identified device stay as they
were, and the call does not throw. -/
theorem getVersion_effect (c : Consts) (d : Driver) (w : World) (dev : PicDevice)
    (h : d.current = some dev) :
    (w.input w.rpos % 256 = c.NACK →
      getVersion c d w =
        (Exit.returned,
          { d with firmwareVersion := 0
                   configBitsEnabled := decide (dev.family = Family.PIC24H
                     ∨ dev.family = Family.PIC24FK ∨ dev.family = Family.dsPIC33F) },
          { w with tx := w.tx ++ [Wire.cmd Command.READ_VERSION], rpos := w.rpos + 1 }))
    ∧ (w.input w.rpos % 256 ≠ c.NACK →
      getVersion c d w =
        (Exit.returned,
          { d with firmwareVersion := w.input w.rpos % 256 },
          { w with tx := w.tx ++ [Wire.cmd Command.READ_VERSION], rpos := w.rpos + 3 })) := by
  constructor
  · intro hn
    simp only [getVersion, h, World.write, World.readByte, hn, if_true]
    congr 2
    cases dev.family <;> simp
  · intro hn
    simp only [getVersion, h, World.write, World.readByte, hn, if_false]
    split <;> rfl

/-- The witness of C10: a PIC24F device whose bootloader answers NACK, and one whose
bootloader answers version 3.1 with a byte that is not ACK. -/
theorem getVersion_effect_witness :
    (sampleDriver Family.PIC24F).current = some (sampleDevice Family.PIC24F)
    ∧ (getVersion sampleConsts (sampleDriver Family.PIC24F) (sampleWorld [0])).2.1.configBitsEnabled
        = false
    ∧ (getVersion sampleConsts (sampleDriver Family.PIC24F) (sampleWorld [0])).2.2.rpos = 1
    ∧ (getVersion sampleConsts (sampleDriver Family.PIC24F) (sampleWorld [3, 1, 7])).2.1
        = { sampleDriver Family.PIC24F with firmwareVersion := 3 }
    ∧ (getVersion sampleConsts (sampleDriver Family.PIC24F) (sampleWorld [3, 1, 7])).2.2.rpos
        = 3 := by
  have h0 := (getVersion_effect sampleConsts (sampleDriver Family.PIC24F) (sampleWorld [0])
    (sampleDevice Family.PIC24F) rfl).1 (by decide)
  have h3 := (getVersion_effect sampleConsts (sampleDriver Family.PIC24F)
    (sampleWorld [3, 1, 7]) (sampleDevice Family.PIC24F) rfl).2 (by decide)
  refine ⟨rfl, ?_, ?_, ?_, ?_⟩
  · rw [h0]; rfl
  · rw [h0]; rfl
  · rw [h3]; rfl
  · rw [h3]; rfl

theorem responseByte_lt (w : World) (k : Nat) : responseByte w k < 256 :=
  Nat.mod_lt _ (by decide)

/-- Two bytes joined into a 16-bit value need no reduction. -/
theorem join_bytes_mod (hi lo : Nat) (hhi : hi < 256) (hlo : lo < 256) :
    ((hi <<< 8) ||| lo) % 65536 = (hi <<< 8) ||| lo := by
  apply Nat.mod_eq_of_lt
  have h1 : hi <<< 8 < 2 ^ 16 := by
    rw [Nat.shiftLeft_eq]
    omega
  have h2 : lo < 2 ^ 16 := by omega
  exact Nat.or_lt_two_pow h1 h2

/-- The high nibble of a byte needs no reduction. -/
theorem shift_byte_mod (b : Nat) (hb : b < 256) : (b >>> 4) % 65536 = b >>> 4 := by
  apply Nat.mod_eq_of_lt
  rw [Nat.shiftRight_eq_div_pow]
  omega

theorem readBytes_getD (w : World) (n k : Nat) (hk : k < n) :
    (w.readBytes n).1.getD k 0 = responseByte w k := by
  simp [World.readBytes, responseByte, List.getD_eq_getElem?_getD, List.getElem?_map,
    List.getElem?_range hk]

/-- A successful search: the index is that of the first matching entry, and the
catalog differs from the old one in the revision of that entry only. -/
theorem readDeviceLoop_some (deviceID processID revision : Nat) :
    ∀ (l : List PicDevice) (i : Nat) (l' : List PicDevice),
      readDeviceLoop deviceID processID revision l = some (i, l') →
      ∃ dev, l[i]? = some dev ∧ dev.id = deviceID ∧ dev.processID = processID
        ∧ (∀ j dev', j < i → l[j]? = some dev' →
            ¬ (dev'.id = deviceID ∧ dev'.processID = processID))
        ∧ l' = l.set i { dev with revision := revision } := by
  intro l
  induction l with
  | nil => intro i l' h; simp [readDeviceLoop] at h
  | cons device rest ih =>
    intro i l' h
    unfold readDeviceLoop at h
    by_cases hm : device.id = deviceID ∧ device.processID = processID
    · rw [if_pos hm] at h
      simp only [Option.some.injEq, Prod.mk.injEq] at h
      obtain ⟨hi, hl⟩ := h
      subst hi
      refine ⟨device, by simp, hm.1, hm.2, ?_, ?_⟩
      · intro j dev' hj
        omega
      · simp [← hl]
    · rw [if_neg hm] at h
      cases hrec : readDeviceLoop deviceID processID revision rest with
      | none => simp [hrec] at h
      | some r =>
        obtain ⟨k, rest'⟩ := r
        simp only [hrec, Option.some.injEq, Prod.mk.injEq] at h
        obtain ⟨hi, hl⟩ := h
        obtain ⟨dev, hget, hid, hpid, hfirst, hset⟩ := ih k rest' hrec
        subst hi
        refine ⟨dev, by simpa using hget, hid, hpid, ?_, ?_⟩
        · intro j dev' hj hj'
          cases j with
          | zero =>
            simp only [List.getElem?_cons_zero, Option.some.injEq] at hj'
            subst hj'
            exact hm
          | succ j =>
            simp only [List.getElem?_cons_succ] at hj'
            exact hfirst j dev' (by omega) hj'
        · simp [← hl, hset]

/-- A failed search: no entry matches. -/
theorem readDeviceLoop_none (deviceID processID revision : Nat) :
    ∀ l : List PicDevice, readDeviceLoop deviceID processID revision l = none →
      ∀ dev ∈ l, ¬ (dev.id = deviceID ∧ dev.processID = processID) := by
  intro l
  induction l with
  | nil => intro _ dev hdev; simp at hdev
  | cons device rest ih =>
    intro h dev hdev
    unfold readDeviceLoop at h
    by_cases hm : device.id = deviceID ∧ device.processID = processID
    · rw [if_pos hm] at h
      simp at h
    · rw [if_neg hm] at h
      cases hrec : readDeviceLoop deviceID processID revision rest with
      | none =>
        rcases List.mem_cons.mp hdev with rfl | hin
        · exact hm
        · exact ih hrec dev hin
      | some r => simp [hrec] at h

theorem giveProgress_input (d : Driver) (w : World) (status : Status) (percent : Nat) :
    (giveProgress d w status percent).input = w.input
    ∧ (giveProgress d w status percent).rpos = w.rpos
    ∧ (giveProgress d w status percent).tx = w.tx
    ∧ (giveProgress d w status percent).readBack = w.readBack := by
  unfold giveProgress
  split <;> exact ⟨rfl, rfl, rfl, rfl⟩

theorem responseByte_congr (w w' : World) (hi : w'.input = w.input) (hr : w'.rpos = w.rpos)
    (k : Nat) : responseByte w' k = responseByte w k := by
  simp [responseByte, hi, hr]

/-- The method `readDevice` with the decoded values written out: the search runs on
the id, the process id and the revision read off the answer. -/
theorem readDevice_eq (d : Driver) (w : World) :
    readDevice d w =
      match readDeviceLoop ((responseByte w 1 <<< 8) ||| responseByte w 0)
          (responseByte w 5 >>> 4) ((responseByte w 5 <<< 8) ||| responseByte w 4)
          d.devices with
      | some (i, devices) =>
        (({ d with devices := devices, currentDevice := some i } : Driver).current,
          { d with devices := devices, currentDevice := some i },
          giveProgress d ((((giveProgress d w Status.Busy 0).write Wire.clear).write
            (Wire.cmd Command.READ_ID)).readBytes 8).2 Status.Idle 0)
      | none =>
        (none, { d with currentDevice := none },
          giveProgress d ((((giveProgress d w Status.Busy 0).write Wire.clear).write
            (Wire.cmd Command.READ_ID)).readBytes 8).2 Status.Idle 0) := by
  have hb : ∀ k, k < 8 →
      ((((giveProgress d w Status.Busy 0).write Wire.clear).write
        (Wire.cmd Command.READ_ID)).readBytes 8).1.getD k 0 = responseByte w k := by
    intro k hk
    rw [readBytes_getD _ 8 k hk]
    exact responseByte_congr _ _ (giveProgress_input d w Status.Busy 0).1
      (giveProgress_input d w Status.Busy 0).2.1 k
  have e1 := join_bytes_mod _ _ (responseByte_lt w 1) (responseByte_lt w 0)
  have e2 := shift_byte_mod _ (responseByte_lt w 5)
  have e3 := join_bytes_mod _ _ (responseByte_lt w 5) (responseByte_lt w 4)
  simp only [readDevice, hb 0 (by decide), hb 1 (by decide), hb 4 (by decide),
    hb 5 (by decide), e1, e2, e3]

/-- C9.  `readDevice` decodes `id = (b[1] << 8) | b[0]`, `processID = b[5] >> 4` and
`revision = (b[5] << 8) | b[4]` from the eight bytes `b` of the answer.  Either some
catalog entry has that id and process id: then the first such entry gets the decoded
revision, becomes the identified device and is returned, and no other entry changes.
Or no entry matches: then nothing is returned, no device is identified and the
catalog is as before.  The answer `[0x34,0x12,0,0,0x07,0x56,0,0]` identifies the
entry with id `0x1234` and process id 5 and gives it the revision `0x5607`. -/
theorem readDevice_spec :
    (∀ (d : Driver) (w : World),
      (∃ i dev, d.devices[i]? = some dev
        ∧ dev.id = ((responseByte w 1 <<< 8) ||| responseByte w 0)
        ∧ dev.processID = responseByte w 5 >>> 4
        ∧ (∀ j dev', j < i → d.devices[j]? = some dev' →
            ¬ (dev'.id = ((responseByte w 1 <<< 8) ||| responseByte w 0)
              ∧ dev'.processID = responseByte w 5 >>> 4))
        ∧ (readDevice d w).1
            = some { dev with revision := (responseByte w 5 <<< 8) ||| responseByte w 4 }
        ∧ (readDevice d w).2.1 =
            { d with
              devices := d.devices.set i
                { dev with revision := (responseByte w 5 <<< 8) ||| responseByte w 4 }
              currentDevice := some i }
        ∧ (readDevice d w).2.1.current
            = some { dev with revision := (responseByte w 5 <<< 8) ||| responseByte w 4 })
      ∨ ((∀ dev ∈ d.devices,
            ¬ (dev.id = ((responseByte w 1 <<< 8) ||| responseByte w 0)
              ∧ dev.processID = responseByte w 5 >>> 4))
        ∧ (readDevice d w).1 = none
        ∧ (readDevice d w).2.1 = { d with currentDevice := none }
        ∧ (readDevice d w).2.1.current = none))
    ∧ (readDevice (Driver.new [sampleDevice Family.PIC24H] true)
        (sampleWorld [0x34, 0x12, 0x00, 0x00, 0x07, 0x56, 0x00, 0x00])).1
        = some { sampleDevice Family.PIC24H with revision := 0x5607 }
    ∧ (sampleDevice Family.PIC24H).id = 0x1234
    ∧ (sampleDevice Family.PIC24H).processID = 5 := by
  refine ⟨?_, by decide, rfl, rfl⟩
  intro d w
  rw [readDevice_eq]
  cases hloop : readDeviceLoop ((responseByte w 1 <<< 8) ||| responseByte w 0)
      (responseByte w 5 >>> 4) ((responseByte w 5 <<< 8) ||| responseByte w 4) d.devices with
  | none =>
    right
    exact ⟨readDeviceLoop_none _ _ _ _ hloop, rfl, rfl, rfl⟩
  | some r =>
    left
    obtain ⟨i, devices⟩ := r
    obtain ⟨dev, hget, hid, hpid, hfirst, hset⟩ := readDeviceLoop_some _ _ _ _ _ _ hloop
    have hlt : i < d.devices.length := by
      rcases Nat.lt_or_ge i d.devices.length with h | h
      · exact h
      · rw [List.getElem?_eq_none h] at hget
        cases hget
    have hcur : (({ d with devices := devices, currentDevice := some i } : Driver)).current
        = some { dev with revision := (responseByte w 5 <<< 8) ||| responseByte w 4 } := by
      simp [Driver.current, hset, List.getElem?_set, hlt]
    refine ⟨i, dev, hget, hid, hpid, hfirst, ?_, ?_, ?_⟩
    · exact hcur
    · simp only [hset]
    · exact hcur

/-! ## The rows keep their region and their address -/

theorem insertData_rowKey (r : MemRow) (address data : Nat) :
    rowKey (r.insertData address data).2 = rowKey r := by
  unfold MemRow.insertData
  split <;> rfl

theorem formatData_rowKey (r : MemRow) : rowKey r.formatData = rowKey r := rfl

theorem readData_rowKey (r : MemRow) (w : World) : rowKey (r.readData w).2.1 = rowKey r := by
  unfold MemRow.readData
  simp only
  split <;> rfl

theorem insertLoop_rowKey (c : Consts) (d : Driver) (family : Family) (dev : PicDevice)
    (address data : Nat) :
    ∀ (rows : List MemRow) (inserted : Bool) (rows' : List MemRow),
      insertLoop c d family dev address data rows = Except.ok (inserted, rows') →
      rows'.map rowKey = rows.map rowKey := by
  intro rows
  induction rows with
  | nil =>
    intro inserted rows' h
    simp only [insertLoop, Except.ok.injEq, Prod.mk.injEq] at h
    rw [← h.2]
  | cons row rest ih =>
    intro inserted rows' h
    unfold insertLoop at h
    split at h
    · cases h
    · split at h
      · cases h
      · split at h
        · rename_i row' hins
          simp only [Except.ok.injEq, Prod.mk.injEq] at h
          rw [← h.2]
          have hk := insertData_rowKey row address data
          rw [hins] at hk
          simp [hk]
        · split at h
          · rename_i inserted' rest' hrec
            simp only [Except.ok.injEq, Prod.mk.injEq] at h
            rw [← h.2]
            simp [ih inserted' rest' hrec]
          · cases h

theorem wordLoop_rowKey (c : Consts) (d : Driver) (family : Family) (dev : PicDevice)
    (byteCount : Nat) :
    ∀ (fuel charCount address : Nat) (lineStream : List Char) (rows rows' : List MemRow),
      wordLoop c d family dev byteCount fuel charCount address lineStream rows
        = some (Except.ok rows') →
      rows'.map rowKey = rows.map rowKey := by
  intro fuel
  induction fuel with
  | zero => intro charCount address lineStream rows rows' h; simp [wordLoop] at h
  | succ fuel ih =>
    intro charCount address lineStream rows rows' h
    unfold wordLoop at h
    split at h
    · split at h
      · cases h
      · split at h
        · cases h
        · cases h
        · rename_i rows1 hins
          rw [ih _ _ _ _ _ h]
          exact insertLoop_rowKey c d family dev _ _ _ _ _ hins
    · simp only [Option.some.injEq, Except.ok.injEq] at h
      rw [h]

theorem parseLine_rowKey (c : Consts) (d : Driver) (family : Family) (dev : PicDevice)
    (line : List Char) (extAddr : Nat) (rows : List MemRow) (extAddr' : Nat)
    (rows' : List MemRow)
    (h : parseLine c d family dev line extAddr rows = some (Except.ok (extAddr', rows'))) :
    rows'.map rowKey = rows.map rowKey := by
  unfold parseLine at h
  simp only at h
  split at h
  · cases h
  · split at h
    · cases h
    · split at h
      · cases h
      · split at h
        · split at h
          · cases h
          · split at h
            · cases h
            · cases h
            · rename_i rows1 hw
              simp only [Option.some.injEq, Except.ok.injEq, Prod.mk.injEq] at h
              rw [← h.2]
              exact wordLoop_rowKey c d family dev _ _ _ _ _ _ _ hw
        · split at h
          · simp only [Option.some.injEq, Except.ok.injEq, Prod.mk.injEq] at h
            rw [h.2]
          · split at h
            · split at h
              · cases h
              · simp only [Option.some.injEq, Except.ok.injEq, Prod.mk.injEq] at h
                rw [h.2]
            · cases h

theorem parseLines_rowKey (c : Consts) (d : Driver) (family : Family) (dev : PicDevice) :
    ∀ (lines : List String) (extAddr : Nat) (rows rows' : List MemRow),
      parseLines c d family dev lines extAddr rows = some (Except.ok rows') →
      rows'.map rowKey = rows.map rowKey := by
  intro lines
  induction lines with
  | nil =>
    intro extAddr rows rows' h
    simp only [parseLines, Option.some.injEq, Except.ok.injEq] at h
    rw [h]
  | cons line rest ih =>
    intro extAddr rows rows' h
    unfold parseLines at h
    split at h
    · exact ih _ _ _ h
    · split at h
      · cases h
      · cases h
      · rename_i extAddr1 rows1 hl
        rw [ih _ _ _ h]
        exact parseLine_rowKey c d family dev _ _ _ _ _ hl

/-! ## What the three loops write to the port -/

theorem programLoop_tx (c : Consts) (d : Driver) (family : Family) (nonEmptyRows : Nat) :
    ∀ (rows : List MemRow) (count : Nat) (w : World) (count' : Nat) (w' : World),
      programLoop c d family nonEmptyRows rows count w = some (count', w') →
      ∃ new, w'.tx = w.tx ++ new
        ∧ ∀ x ∈ new, ∃ row ∈ rows, x = Wire.sendData row
            ∧ shouldSkipRow c d row family = some false
            ∧ ¬ (row.getType = MemType.Configuration ∧ d.configBitsEnabled = false) := by
  intro rows
  induction rows with
  | nil =>
    intro count w count' w' h
    simp only [programLoop, Option.some.injEq, Prod.mk.injEq] at h
    exact ⟨[], by simp [← h.2], by simp⟩
  | cons row rest ih =>
    intro count w count' w' h
    unfold programLoop at h
    simp only at h
    have hgp : (if (!row.isEmpty) = true then
          giveProgress d w Status.Programming
            (100 * (if (!row.isEmpty) = true then count + 1 else count) / nonEmptyRows)
        else w).tx = w.tx := by
      split
      · exact (giveProgress_input d w _ _).2.2.1
      · rfl
    split at h
    · obtain ⟨new, hnew, hall⟩ := ih _ _ _ _ h
      refine ⟨new, by rw [hnew, hgp], ?_⟩
      intro x hx
      obtain ⟨r, hr, hrest⟩ := hall x hx
      exact ⟨r, List.mem_cons_of_mem _ hr, hrest⟩
    · rename_i hcfg
      split at h
      · cases h
      · rename_i skip hskip
        obtain ⟨new, hnew, hall⟩ := ih _ _ _ _ h
        cases skip with
        | true =>
          refine ⟨new, ?_, ?_⟩
          · simp only [Bool.not_true, Bool.false_eq_true, if_false] at hnew
            rw [hnew, hgp]
          · intro x hx
            obtain ⟨r, hr, hrest⟩ := hall x hx
            exact ⟨r, List.mem_cons_of_mem _ hr, hrest⟩
        | false =>
          refine ⟨Wire.sendData row :: new, ?_, ?_⟩
          · simp only [Bool.not_false, if_true] at hnew
            rw [hnew]
            show (_ ++ [Wire.sendData row]) ++ new = _
            rw [hgp, List.append_assoc]
            rfl
          · intro x hx
            rcases List.mem_cons.mp hx with rfl | hx
            · refine ⟨row, List.mem_cons_self _ _, rfl, hskip, ?_⟩
              intro hc
              apply hcfg
              exact ⟨hc.1, by simp [hc.2]⟩
            · obtain ⟨r, hr, hrest⟩ := hall x hx
              exact ⟨r, List.mem_cons_of_mem _ hr, hrest⟩

theorem readData_tx (r : MemRow) (w : World) :
    (r.readData w).2.2.tx = w.tx ++ [Wire.readData r] := by
  unfold MemRow.readData
  simp only
  split <;> rfl

theorem verifyLoop_tx (c : Consts) (d : Driver) (family : Family) (nonEmptyProgramRows : Nat) :
    ∀ (pairs : List (MemRow × MemRow)) (count : Nat) (w : World) (rows : List MemRow)
      (count' : Nat) (verifyOK : Bool) (w' : World),
      verifyLoop c d family nonEmptyProgramRows pairs count w
        = some (rows, count', verifyOK, w') →
      (∃ new, w'.tx = w.tx ++ new ∧ ∀ x ∈ new, ∃ row, x = Wire.readData row)
      ∧ rows.map rowKey = pairs.map fun p => rowKey p.1 := by
  intro pairs
  induction pairs with
  | nil =>
    intro count w rows count' verifyOK w' h
    simp only [verifyLoop, Option.some.injEq, Prod.mk.injEq] at h
    obtain ⟨h1, -, -, h4⟩ := h
    subst h1 h4
    exact ⟨⟨[], by simp, by simp⟩, rfl⟩
  | cons pair rest ih =>
    obtain ⟨row, snapshot⟩ := pair
    intro count w rows count' verifyOK w' h
    unfold verifyLoop at h
    simp only at h
    have hgp : (if (!row.isEmpty) = true then
          giveProgress d w Status.Verifying
            (100 * (if (!row.isEmpty) = true then count + 1 else count) / nonEmptyProgramRows)
        else w).tx = w.tx := by
      split
      · exact (giveProgress_input d w _ _).2.2.1
      · rfl
    split at h
    · cases h
    · split at h
      · cases h
      · rename_i rows1 n1 ok1 w1 hrec
        simp only [Option.some.injEq, Prod.mk.injEq] at h
        obtain ⟨h1, -, -, h4⟩ := h
        subst h1 h4
        obtain ⟨⟨new, hnew, hall⟩, hkeys⟩ := ih _ _ _ _ _ _ hrec
        exact ⟨⟨new, by rw [hnew, hgp], hall⟩, by simp [hkeys]⟩
    · split at h
      · rename_i row1 w1 hread
        have hk : rowKey row1 = rowKey row := by
          have := readData_rowKey row (if (!row.isEmpty) = true then
            giveProgress d w Status.Verifying
              (100 * (if (!row.isEmpty) = true then count + 1 else count) / nonEmptyProgramRows)
            else w)
          rw [hread] at this
          exact this
        have ht : w1.tx = w.tx ++ [Wire.readData row] := by
          have := readData_tx row (if (!row.isEmpty) = true then
            giveProgress d w Status.Verifying
              (100 * (if (!row.isEmpty) = true then count + 1 else count) / nonEmptyProgramRows)
            else w)
          rw [hread, hgp] at this
          exact this
        split at h
        · simp only [Option.some.injEq, Prod.mk.injEq] at h
          obtain ⟨h1, -, -, h4⟩ := h
          subst h1 h4
          refine ⟨⟨[Wire.readData row], ht, ?_⟩, ?_⟩
          · intro x hx
            exact ⟨row, by simpa using hx⟩
          · simp [hk, Function.comp_def]
        · split at h
          · cases h
          · rename_i rows1 n1 ok1 w2 hrec
            simp only [Option.some.injEq, Prod.mk.injEq] at h
            obtain ⟨h1, -, -, h4⟩ := h
            subst h1 h4
            obtain ⟨⟨new, hnew, hall⟩, hkeys⟩ := ih _ _ _ _ _ _ hrec
            refine ⟨⟨Wire.readData row :: new, by rw [hnew, ht]; simp, ?_⟩, by simp [hkeys, hk]⟩
            intro x hx
            rcases List.mem_cons.mp hx with rfl | hx
            · exact ⟨row, rfl⟩
            · exact hall x hx
      · rename_i row1 w1 hread
        have hk : rowKey row1 = rowKey row := by
          have := readData_rowKey row (if (!row.isEmpty) = true then
            giveProgress d w Status.Verifying
              (100 * (if (!row.isEmpty) = true then count + 1 else count) / nonEmptyProgramRows)
            else w)
          rw [hread] at this
          exact this
        have ht : w1.tx = w.tx ++ [Wire.readData row] := by
          have := readData_tx row (if (!row.isEmpty) = true then
            giveProgress d w Status.Verifying
              (100 * (if (!row.isEmpty) = true then count + 1 else count) / nonEmptyProgramRows)
            else w)
          rw [hread, hgp] at this
          exact this
        split at h
        · cases h
        · rename_i rows1 n1 ok1 w2 hrec
          simp only [Option.some.injEq, Prod.mk.injEq] at h
          obtain ⟨h1, -, -, h4⟩ := h
          subst h1 h4
          obtain ⟨⟨new, hnew, hall⟩, hkeys⟩ := ih _ _ _ _ _ _ hrec
          refine ⟨⟨Wire.readData row :: new, by rw [hnew, ht]; simp, ?_⟩, by simp [hkeys, hk]⟩
          intro x hx
          rcases List.mem_cons.mp hx with rfl | hx
          · exact ⟨row, rfl⟩
          · exact hall x hx

theorem resendConfig_tx :
    ∀ (rows : List MemRow) (w : World),
      ∃ new, (resendConfig rows w).tx = w.tx ++ new
        ∧ ∀ x ∈ new, ∃ row ∈ rows, x = Wire.sendData row
            ∧ row.getType = MemType.Configuration := by
  intro rows
  induction rows with
  | nil => intro w; exact ⟨[], by simp [resendConfig], by simp⟩
  | cons row rest ih =>
    intro w
    unfold resendConfig
    split
    · rename_i hc
      obtain ⟨new, hnew, hall⟩ := ih (row.sendData w)
      refine ⟨Wire.sendData row :: new, ?_, ?_⟩
      · rw [hnew]
        simp [MemRow.sendData, World.write]
      · intro x hx
        rcases List.mem_cons.mp hx with rfl | hx
        · exact ⟨row, List.mem_cons_self _ _, rfl, hc⟩
        · obtain ⟨r, hr, hrest⟩ := hall x hx
          exact ⟨r, List.mem_cons_of_mem _ hr, hrest⟩
    · obtain ⟨new, hnew, hall⟩ := ih w
      refine ⟨new, hnew, ?_⟩
      intro x hx
      obtain ⟨r, hr, hrest⟩ := hall x hx
      exact ⟨r, List.mem_cons_of_mem _ hr, hrest⟩

/-! ## What `programHexFile` writes to the port -/

theorem ite_giveProgress_tx (d : Driver) (w : World) (b : Prop) [Decidable b]
    (status : Status) (percent : Nat) :
    (if b then giveProgress d w status percent else w).tx = w.tx := by
  split
  · exact (giveProgress_input d w _ _).2.2.1
  · rfl

theorem programStage_tx (c : Consts) (d : Driver) (w : World) (family : Family)
    (dev : PicDevice) (ppMemory : List MemRow) :
    (programStage c d w family dev ppMemory).2.1 = d
    ∧ ∃ new, (programStage c d w family dev ppMemory).2.2.tx = w.tx ++ new
        ∧ ∀ x ∈ new, StageWire c d family ppMemory x := by
  unfold programStage
  split
  · rename_i hlt
    refine ⟨rfl, [Wire.cmd Command.READ_PM, Wire.value 0, Wire.value 0, Wire.value 0], ?_, ?_⟩
    · simp [World.write, World.readBytes]
    · intro x hx
      left
      refine ⟨hlt, ?_⟩
      simp only [List.mem_cons, List.mem_singleton, List.not_mem_nil, or_false] at hx
      rcases hx with h | h | h | h
      · exact Or.inl h
      · exact Or.inr h
      · exact Or.inr h
      · exact Or.inr h
  · rename_i hge
    have hge : 3 ≤ d.firmwareVersion := Nat.le_of_not_lt hge
    simp only
    split
    · exact ⟨rfl, [], by simp, by simp⟩
    · rename_i count1 w1 hprog
      obtain ⟨new1, hnew1, hall1⟩ := programLoop_tx c d family _ _ _ _ _ _ hprog
      have hsend1 : ∀ x ∈ new1, StageWire c d family ppMemory x := by
        intro x hx
        obtain ⟨row, -, hx', hskip, -⟩ := hall1 x hx
        exact Or.inr ⟨hge, Or.inl ⟨row, hx', hskip⟩⟩
      split
      · exact ⟨rfl, new1, hnew1, hsend1⟩
      · rename_i rows count2 verifyOK w2 hver
        refine ⟨rfl, ?_⟩
        obtain ⟨⟨new2, hnew2, hall2⟩, hkeys⟩ := verifyLoop_tx c d family _ _ _ _ _ _ _ _ hver
        have hkeys' : (rows ++ (ppMemory.map MemRow.formatData).drop c.PM_SIZE).map rowKey
            = ppMemory.map rowKey := by
          rw [List.map_append, hkeys]
          have hz : List.map (fun p : MemRow × MemRow => rowKey p.1)
              (((ppMemory.map MemRow.formatData).take c.PM_SIZE).zip
                ((ppMemory.map MemRow.formatData).take c.PM_SIZE))
              = ((ppMemory.map MemRow.formatData).take c.PM_SIZE).map rowKey := by
            have := List.map_fst_zip ((ppMemory.map MemRow.formatData).take c.PM_SIZE)
              ((ppMemory.map MemRow.formatData).take c.PM_SIZE) (Nat.le_refl _)
            conv_rhs => rw [← this]
            rw [List.map_map]
            rfl
          rw [hz, ← List.map_append, List.take_append_drop, List.map_map]
          apply List.map_congr_left
          intro r _
          exact formatData_rowKey r
        obtain ⟨new3, hnew3, hall3⟩ :
            ∃ new3, (if d.configBitsEnabled = true then
                resendConfig (rows ++ (ppMemory.map MemRow.formatData).drop c.PM_SIZE)
                  (if (!verifyOK) = true then giveProgress d w2 Status.Error 0 else w2)
              else (if (!verifyOK) = true then giveProgress d w2 Status.Error 0 else w2)).tx
              = w2.tx ++ new3
              ∧ ∀ x ∈ new3, ∃ row, x = Wire.sendData row
                  ∧ row.getType = MemType.Configuration
                  ∧ rowKey row ∈ ppMemory.map rowKey := by
          split
          · obtain ⟨new3, h3, hall3⟩ := resendConfig_tx
              (rows ++ (ppMemory.map MemRow.formatData).drop c.PM_SIZE)
              (if (!verifyOK) = true then giveProgress d w2 Status.Error 0 else w2)
            refine ⟨new3, by rw [h3, ite_giveProgress_tx], ?_⟩
            intro x hx
            obtain ⟨row, hrow, hx', hty⟩ := hall3 x hx
            refine ⟨row, hx', hty, ?_⟩
            rw [← hkeys']
            exact List.mem_map_of_mem _ hrow
          · exact ⟨[], by rw [ite_giveProgress_tx]; simp, by simp⟩
        have hsend : ∀ x ∈ new1 ++ new2 ++ new3, StageWire c d family ppMemory x := by
          intro x hx
          right
          refine ⟨hge, ?_⟩
          rcases List.mem_append.mp hx with hx | hx
          · rcases List.mem_append.mp hx with hx | hx
            · obtain ⟨row, -, hx', hskip, -⟩ := hall1 x hx
              exact Or.inl ⟨row, hx', hskip⟩
            · exact Or.inr (Or.inr (Or.inl (hall2 x hx)))
          · exact Or.inr (Or.inl (hall3 x hx))
        refine ⟨new1 ++ new2 ++ new3 ++
          [if d.firmwareVersion = 0 ∨ d.configBitsEnabled = true then Wire.cmd Command.RESET
            else Wire.cmd Command.POR_RESET], ?_, ?_⟩
        · show (if verifyOK = true then giveProgress d _ Status.Idle 100 else _).tx = _
          rw [ite_giveProgress_tx]
          by_cases hP : d.firmwareVersion = 0 ∨ d.configBitsEnabled = true
          · simp only [hP, if_true]
            show _ ++ [Wire.cmd Command.RESET] = _
            rw [hnew3, hnew2, hnew1]
            simp
          · simp only [hP, if_false]
            show _ ++ [Wire.cmd Command.POR_RESET] = _
            rw [hnew3, hnew2, hnew1]
            simp
        · intro x hx
          rcases List.mem_append.mp hx with hx | hx
          · exact hsend x hx
          · right
            refine ⟨hge, Or.inr (Or.inr (Or.inr ?_))⟩
            simp only [List.mem_singleton] at hx
            rw [hx]
            split
            · exact Or.inl rfl
            · exact Or.inr rfl

/-! ## The fuel of the word loop is enough -/

theorem parseHexFrom_length :
    ∀ (digits acc : Nat) (s : List Char) (v : Nat) (rest : List Char),
      parseHexFrom acc digits s = some (v, rest) → rest.length + digits = s.length := by
  intro digits
  induction digits with
  | zero =>
    intro acc s v rest h
    simp only [parseHexFrom, Option.some.injEq, Prod.mk.injEq] at h
    rw [h.2]
    rfl
  | succ digits ih =>
    intro acc s v rest h
    cases s with
    | nil => simp [parseHexFrom] at h
    | cons ch s =>
      unfold parseHexFrom at h
      split at h
      · cases h
      · have := ih _ _ _ _ h
        simp only [List.length_cons]
        omega

theorem wordLoop_ne_none (c : Consts) (d : Driver) (family : Family) (dev : PicDevice)
    (byteCount : Nat) :
    ∀ (fuel charCount address : Nat) (lineStream : List Char) (rows : List MemRow),
      lineStream.length < fuel →
      wordLoop c d family dev byteCount fuel charCount address lineStream rows ≠ none := by
  intro fuel
  induction fuel with
  | zero => intro charCount address lineStream rows h; omega
  | succ fuel ih =>
    intro charCount address lineStream rows hlen
    unfold wordLoop
    split
    · split
      · simp
      · rename_i data rest hparse
        have hl := parseHexFrom_length 4 0 lineStream data rest hparse
        split
        · simp
        · simp
        · exact ih _ _ _ _ (by omega)
    · simp

theorem parseLine_ne_none (c : Consts) (d : Driver) (family : Family) (dev : PicDevice)
    (line : List Char) (extAddr : Nat) (rows : List MemRow) :
    parseLine c d family dev line extAddr rows ≠ none := by
  unfold parseLine
  simp only
  split
  · simp
  · split
    · simp
    · split
      · simp
      · rename_i recordType lineStream hparse
        split
        · split
          · simp
          · split
            · rename_i hnone
              exact absurd hnone
                (wordLoop_ne_none c d family dev _ _ _ _ _ _ (Nat.lt_succ_self _))
            · simp
            · simp
        · split
          · simp
          · split
            · split <;> simp
            · simp

theorem parseLines_ne_none (c : Consts) (d : Driver) (family : Family) (dev : PicDevice) :
    ∀ (lines : List String) (extAddr : Nat) (rows : List MemRow),
      parseLines c d family dev lines extAddr rows ≠ none := by
  intro lines
  induction lines with
  | nil => intro extAddr rows; simp [parseLines]
  | cons line rest ih =>
    intro extAddr rows
    unfold parseLines
    split
    · exact ih _ _
    · split
      · rename_i hnone
        exact absurd hnone (parseLine_ne_none c d family dev _ _ _)
      · simp
      · exact ih _ _

/-! ## The ways through `programHexFile` -/

/-- `getVersion` either throws at once, or returns after one `READ_VERSION`; it never
touches the catalog or the pointer to the identified device. -/
theorem getVersion_cases (c : Consts) (d : Driver) (w : World) :
    (d.current = none ∧ getVersion c d w = (Exit.logicError, d, w))
    ∨ ∃ dev d1 w1, d.current = some dev ∧ getVersion c d w = (Exit.returned, d1, w1)
        ∧ d1.current = some dev ∧ w1.tx = w.tx ++ [Wire.cmd Command.READ_VERSION] := by
  cases hcur : d.current with
  | none =>
    left
    exact ⟨rfl, by simp [getVersion, hcur]⟩
  | some dev =>
    right
    by_cases hn : w.input w.rpos % 256 = c.NACK
    · refine ⟨dev,
        { d with firmwareVersion := 0
                 configBitsEnabled := decide (dev.family = Family.PIC24H)
                   || decide (dev.family = Family.PIC24FK)
                   || decide (dev.family = Family.dsPIC33F) },
        { w with tx := w.tx ++ [Wire.cmd Command.READ_VERSION], rpos := w.rpos + 1 },
        rfl, ?_, ?_, ?_⟩
      · simp only [getVersion, hcur, World.write, World.readByte, hn, if_true]
      · exact hcur
      · rfl
    · refine ⟨dev, { d with firmwareVersion := w.input w.rpos % 256 },
        { w with tx := w.tx ++ [Wire.cmd Command.READ_VERSION], rpos := w.rpos + 3 },
        rfl, ?_, ?_, ?_⟩
      · simp only [getVersion, hcur, World.write, World.readByte, hn, if_false]
        split <;> rfl
      · exact hcur
      · rfl

/-- The five ways through `programHexFile`: no device, a failed stream, an abort
while parsing, the end of the fuel, and the stage after parsing. -/
theorem programHexFile_cases (c : Consts) (d : Driver) (w : World)
    (hexFile : Option (List String)) :
    (d.current = none ∧ programHexFile c d w hexFile = (Exit.logicError, d, w))
    ∨ ∃ dev d1 w1, d.current = some dev ∧ getVersion c d w = (Exit.returned, d1, w1)
        ∧ d1.current = some dev ∧ w1.tx = w.tx ++ [Wire.cmd Command.READ_VERSION]
        ∧ ((hexFile = none ∧ programHexFile c d w hexFile = (Exit.streamFailed, d1, w1))
          ∨ (∃ lines why, hexFile = some lines
              ∧ parseLines c d1 dev.family dev lines 0
                  (buildMemory c dev.family (sessionRowSize c dev)) = some (Except.error why)
              ∧ programHexFile c d w hexFile = (Exit.parseAbort why, d1, w1))
          ∨ (∃ lines ppMemory, hexFile = some lines
              ∧ parseLines c d1 dev.family dev lines 0
                  (buildMemory c dev.family (sessionRowSize c dev)) = some (Except.ok ppMemory)
              ∧ programHexFile c d w hexFile
                  = programStage c d1 w1 dev.family dev ppMemory)) := by
  rcases getVersion_cases c d w with ⟨hcur, hgv⟩ | ⟨dev, d1, w1, hcur, hgv, hcur1, htx⟩
  · left
    exact ⟨hcur, by simp [programHexFile, hgv]⟩
  · right
    refine ⟨dev, d1, w1, hcur, hgv, hcur1, htx, ?_⟩
    cases hexFile with
    | none =>
      left
      exact ⟨rfl, by simp [programHexFile, hgv, hcur1]⟩
    | some lines =>
      right
      cases hp : parseLines c d1 dev.family dev lines 0
          (buildMemory c dev.family (sessionRowSize c dev)) with
      | none => exact absurd hp (parseLines_ne_none c d1 dev.family dev _ _ _)
      | some r =>
        cases r with
        | error why =>
          left
          refine ⟨lines, why, rfl, hp, ?_⟩
          unfold sessionRowSize at hp
          simp [programHexFile, hgv, hcur1, hp]
        | ok ppMemory =>
          right
          refine ⟨lines, ppMemory, rfl, hp, ?_⟩
          unfold sessionRowSize at hp
          simp [programHexFile, hgv, hcur1, hp]

/-- The stage after parsing ends by the legacy throw, by a null device, or at its end. -/
theorem programStage_exit (c : Consts) (d : Driver) (w : World) (family : Family)
    (dev : PicDevice) (ppMemory : List MemRow) :
    (programStage c d w family dev ppMemory).1 = Exit.logicError
    ∨ (programStage c d w family dev ppMemory).1 = Exit.nullDevice
    ∨ (programStage c d w family dev ppMemory).1 = Exit.returned := by
  unfold programStage
  split
  · exact Or.inl rfl
  · simp only
    split
    · exact Or.inr (Or.inl rfl)
    · split
      · exact Or.inr (Or.inl rfl)
      · exact Or.inr (Or.inr rfl)

/-! ## Aborts while parsing leave the device untouched -/

/-- C4.  When `programHexFile` stops in the parse phase (a clash check fails, no row
accepts an address, a record has a type outside 0, 1, 4, or a field is no
hexadecimal number), the call has written exactly one thing to the port: the
`READ_VERSION` query of `getVersion`.  No `sendData`, no `readData`, no `READ_PM`
and no reset was written. -/
theorem programHexFile_parseAbort_tx (c : Consts) (d : Driver) (w : World)
    (hexFile : Option (List String)) (why : ParseAbort)
    (h : (programHexFile c d w hexFile).1 = Exit.parseAbort why) :
    (programHexFile c d w hexFile).2.2.tx = w.tx ++ [Wire.cmd Command.READ_VERSION] := by
  rcases programHexFile_cases c d w hexFile with
    ⟨-, hr⟩ | ⟨dev, d1, w1, -, -, -, htx,
      ⟨-, hr⟩ | ⟨lines, why', -, -, hr⟩ | ⟨lines, mem, -, -, hr⟩⟩
  · rw [hr] at h
    cases h
  · rw [hr] at h
    cases h
  · rw [hr]
    exact htx
  · rw [hr] at h
    rcases programStage_exit c d1 w1 dev.family dev mem with he | he | he <;>
      rw [he] at h <;> cases h

/-- The witness of C4: a record of type 2 stops the parse. -/
theorem programHexFile_parseAbort_tx_witness :
    (programHexFile sampleConsts (sampleDriver Family.PIC24H) (sampleWorld [3, 1, 1])
        (some [":020000021000EC"])).1 = Exit.parseAbort ParseAbort.unknownRecord
    ∧ (programHexFile sampleConsts (sampleDriver Family.PIC24H) (sampleWorld [3, 1, 1])
        (some [":020000021000EC"])).2.2.tx = [Wire.cmd Command.READ_VERSION] :=
  ⟨by decide,
    programHexFile_parseAbort_tx sampleConsts (sampleDriver Family.PIC24H)
      (sampleWorld [3, 1, 1]) (some [":020000021000EC"]) ParseAbort.unknownRecord (by decide)⟩

/-! ## Firmware version 3 and later: nothing below `PROGRAM_START` is sent -/

theorem buildMemory_config_key (c : Consts) (family : Family) (rowsize : Nat) :
    ∀ k ∈ (buildMemory c family rowsize).map rowKey,
      k.1 = MemType.Configuration → 0xF80000 ≤ k.2 := by
  intro k hk hty
  simp only [buildMemory, List.map_append, List.map_map, List.mem_append, List.mem_map,
    List.mem_range, Function.comp] at hk
  rcases hk with (⟨row, -, rfl⟩ | ⟨row, -, rfl⟩) | ⟨row, -, rfl⟩
  · simp [rowKey, MemRow.create] at hty
  · simp [rowKey, MemRow.create] at hty
  · simp [rowKey, MemRow.create]

theorem shouldSkipRow_false_v3 (c : Consts) (d : Driver) (row : MemRow) (family : Family)
    (hv : 3 ≤ d.firmwareVersion) (h : shouldSkipRow c d row family = some false) :
    c.PROGRAM_START ≤ row.getAddress := by
  unfold shouldSkipRow at h
  simp only at h
  split at h
  · cases h
  · rename_i hn
    rcases Nat.lt_or_ge row.getAddress c.PROGRAM_START with hlt | hge
    · exact absurd ⟨hv, hlt⟩ hn
    · exact hge

/-- C5.  In a run of `programHexFile` whose firmware version is 3 or more, every row
handed to `sendData`, by the programming loop or by the configuration re-send, has
an address at or above `PROGRAM_START` (the configuration rows start at `0xF80000`,
which is not below `PROGRAM_START`). -/
theorem programHexFile_v3_sends_above_start (c : Consts) (d : Driver) (w : World)
    (hexFile : Option (List String)) (hps : c.PROGRAM_START ≤ 0xF80000)
    (hv : 3 ≤ (programHexFile c d w hexFile).2.1.firmwareVersion) :
    ∃ new, (programHexFile c d w hexFile).2.2.tx = w.tx ++ new
      ∧ ∀ row, Wire.sendData row ∈ new → c.PROGRAM_START ≤ row.getAddress := by
  rcases programHexFile_cases c d w hexFile with
    ⟨-, hr⟩ | ⟨dev, d1, w1, -, -, -, htx,
      ⟨-, hr⟩ | ⟨lines, why', -, -, hr⟩ | ⟨lines, mem, -, hparse, hr⟩⟩
  · exact ⟨[], by simp [hr], by simp⟩
  · exact ⟨[Wire.cmd Command.READ_VERSION], by rw [hr]; exact htx, by simp⟩
  · exact ⟨[Wire.cmd Command.READ_VERSION], by rw [hr]; exact htx, by simp⟩
  · rw [hr] at hv ⊢
    obtain ⟨hd, new, hnew, hall⟩ := programStage_tx c d1 w1 dev.family dev mem
    rw [hd] at hv
    refine ⟨Wire.cmd Command.READ_VERSION :: new, by rw [hnew, htx]; simp, ?_⟩
    intro row hrow
    rcases List.mem_cons.mp hrow with h | h
    · cases h
    · rcases hall _ h with ⟨hlt, -⟩ | ⟨-, hk⟩
      · omega
      · rcases hk with ⟨row', hx, hskip⟩ | ⟨row', hx, hty, hkey⟩ | ⟨row', hx⟩ | hx | hx
        · cases hx
          exact shouldSkipRow_false_v3 c d1 row dev.family hv hskip
        · cases hx
          rw [parseLines_rowKey c d1 dev.family dev _ _ _ _ hparse] at hkey
          have := buildMemory_config_key c dev.family _ _ hkey hty
          exact Nat.le_trans hps this
        · cases hx
        · cases hx
        · cases hx

/-- The witness of C5: a version-3 bootloader on a PIC24H and a hex stream with one
word at word address `0xC00`. -/
theorem programHexFile_v3_sends_above_start_witness :
    sampleConsts.PROGRAM_START ≤ 0xF80000
    ∧ 3 ≤ (programHexFile sampleConsts (sampleDriver Family.PIC24H) (sampleWorld [3, 1, 1])
        (some [":021800001234A0", ":00000001FF"])).2.1.firmwareVersion
    ∧ ∃ new, (programHexFile sampleConsts (sampleDriver Family.PIC24H) (sampleWorld [3, 1, 1])
          (some [":021800001234A0", ":00000001FF"])).2.2.tx = (sampleWorld [3, 1, 1]).tx ++ new
        ∧ ∀ row, Wire.sendData row ∈ new → sampleConsts.PROGRAM_START ≤ row.getAddress :=
  ⟨by decide, by decide,
    programHexFile_v3_sends_above_start sampleConsts (sampleDriver Family.PIC24H)
      (sampleWorld [3, 1, 1]) (some [":021800001234A0", ":00000001FF"]) (by decide) (by decide)⟩

/-! ## The legacy branch -/

theorem shouldSkipRow_ne_none (c : Consts) (d : Driver) (row : MemRow) (family : Family)
    (dev : PicDevice) (hcur : d.current = some dev) :
    shouldSkipRow c d row family ≠ none := by
  unfold shouldSkipRow
  simp only [hcur]
  split
  · simp
  · split
    · split <;> simp
    · simp

theorem programLoop_ne_none (c : Consts) (d : Driver) (family : Family) (nonEmptyRows : Nat)
    (dev : PicDevice) (hcur : d.current = some dev) :
    ∀ (rows : List MemRow) (count : Nat) (w : World),
      programLoop c d family nonEmptyRows rows count w ≠ none := by
  intro rows
  induction rows with
  | nil => intro count w; simp [programLoop]
  | cons row rest ih =>
    intro count w
    unfold programLoop
    simp only
    split
    · exact ih _ _
    · split
      · rename_i hnone
        exact absurd hnone (shouldSkipRow_ne_none c d row family dev hcur)
      · exact ih _ _

theorem verifyLoop_ne_none (c : Consts) (d : Driver) (family : Family)
    (nonEmptyProgramRows : Nat) (dev : PicDevice) (hcur : d.current = some dev) :
    ∀ (pairs : List (MemRow × MemRow)) (count : Nat) (w : World),
      verifyLoop c d family nonEmptyProgramRows pairs count w ≠ none := by
  intro pairs
  induction pairs with
  | nil => intro count w; simp [verifyLoop]
  | cons pair rest ih =>
    obtain ⟨row, snapshot⟩ := pair
    intro count w
    unfold verifyLoop
    simp only
    split
    · rename_i hnone
      exact absurd hnone (shouldSkipRow_ne_none c d row family dev hcur)
    · split
      · rename_i hnone
        exact absurd hnone (ih _ _)
      · simp
    · split
      · split
        · simp
        · split
          · rename_i hnone
            exact absurd hnone (ih _ _)
          · simp
      · split
        · rename_i hnone
          exact absurd hnone (ih _ _)
        · simp

/-- With firmware version 3 or more and an identified device, the stage after
parsing runs to its end: it writes transfers of rows and then one reset. -/
theorem programStage_v3 (c : Consts) (d : Driver) (w : World) (family : Family)
    (dev dev' : PicDevice) (ppMemory : List MemRow) (hcur : d.current = some dev')
    (hv : 3 ≤ d.firmwareVersion) :
    (programStage c d w family dev ppMemory).1 = Exit.returned
    ∧ ∃ mid, (programStage c d w family dev ppMemory).2.2.tx = w.tx ++ mid ++
          [if d.configBitsEnabled = true then Wire.cmd Command.RESET
            else Wire.cmd Command.POR_RESET]
        ∧ ∀ x ∈ mid, (∃ row, x = Wire.sendData row) ∨ (∃ row, x = Wire.readData row) := by
  unfold programStage
  rw [if_neg (by omega)]
  simp only
  split
  · rename_i hnone
    exact absurd hnone (programLoop_ne_none c d family _ dev' hcur _ _ _)
  · rename_i count1 w1 hprog
    obtain ⟨new1, hnew1, hall1⟩ := programLoop_tx c d family _ _ _ _ _ _ hprog
    split
    · rename_i hnone
      exact absurd hnone (verifyLoop_ne_none c d family _ dev' hcur _ _ _)
    · rename_i rows count2 verifyOK w2 hver
      refine ⟨rfl, ?_⟩
      obtain ⟨⟨new2, hnew2, hall2⟩, -⟩ := verifyLoop_tx c d family _ _ _ _ _ _ _ _ hver
      obtain ⟨new3, hnew3, hall3⟩ :
          ∃ new3, (if d.configBitsEnabled = true then
              resendConfig (rows ++ (ppMemory.map MemRow.formatData).drop c.PM_SIZE)
                (if (!verifyOK) = true then giveProgress d w2 Status.Error 0 else w2)
            else (if (!verifyOK) = true then giveProgress d w2 Status.Error 0 else w2)).tx
            = w2.tx ++ new3
            ∧ ∀ x ∈ new3, ∃ row, x = Wire.sendData row := by
        split
        · obtain ⟨new3, h3, hall3⟩ := resendConfig_tx
            (rows ++ (ppMemory.map MemRow.formatData).drop c.PM_SIZE)
            (if (!verifyOK) = true then giveProgress d w2 Status.Error 0 else w2)
          refine ⟨new3, by rw [h3, ite_giveProgress_tx], ?_⟩
          intro x hx
          obtain ⟨row, -, hx', -⟩ := hall3 x hx
          exact ⟨row, hx'⟩
        · exact ⟨[], by rw [ite_giveProgress_tx]; simp, by simp⟩
      refine ⟨new1 ++ new2 ++ new3, ?_, ?_⟩
      · show (if verifyOK = true then giveProgress d _ Status.Idle 100 else _).tx = _
        rw [ite_giveProgress_tx]
        have hz : ¬ d.firmwareVersion = 0 := by omega
        by_cases hP : d.configBitsEnabled = true
        · simp only [hP, or_true, if_true]
          show _ ++ [Wire.cmd Command.RESET] = _
          simp only [hP, if_true] at hnew3
          rw [hnew3, hnew2, hnew1]
          simp
        · simp only [hz, hP, or_self, if_false]
          show _ ++ [Wire.cmd Command.POR_RESET] = _
          simp only [hP, if_false] at hnew3
          rw [hnew3, hnew2, hnew1]
          simp
      · intro x hx
        rcases List.mem_append.mp hx with hx | hx
        · rcases List.mem_append.mp hx with hx | hx
          · obtain ⟨row, -, hx', -⟩ := hall1 x hx
            exact Or.inl ⟨row, hx'⟩
          · exact Or.inr (hall2 x hx)
        · exact Or.inl (hall3 x hx)

/-- With a firmware version below 3 the stage after parsing is the legacy branch: it
writes `READ_PM` and three zeros, reads three rows of bytes and throws. -/
theorem programStage_legacy (c : Consts) (d : Driver) (w : World) (family : Family)
    (dev : PicDevice) (ppMemory : List MemRow) (hv : d.firmwareVersion < 3) :
    (programStage c d w family dev ppMemory).1 = Exit.logicError
    ∧ (programStage c d w family dev ppMemory).2.2.tx = w.tx ++
        [Wire.cmd Command.READ_PM, Wire.value 0, Wire.value 0, Wire.value 0] := by
  unfold programStage
  rw [if_pos hv]
  simp [World.write, World.readBytes]

theorem checkAddressClashData_listed (c : Consts) (address data : Nat) (family : Family)
    (hf : family ≠ Family.dsPIC30F) : checkAddressClashData c address data family = true := by
  simp [checkAddressClashData, checkAddressClashFamily_eq, hf]

theorem checkAddressClash_listed (address : Nat) (family : Family)
    (hf : family ≠ Family.dsPIC30F) : checkAddressClash address family = true := by
  simp [checkAddressClash, checkAddressClashFamily_eq, hf]

theorem insertLoop_listed (c : Consts) (d : Driver) (family : Family) (dev : PicDevice)
    (address data : Nat) (hf : family ≠ Family.dsPIC30F) :
    ∀ (rows : List MemRow) (why : ParseAbort),
      insertLoop c d family dev address data rows = Except.error why → NoBootClash why := by
  intro rows
  induction rows with
  | nil => intro why h; simp [insertLoop] at h
  | cons row rest ih =>
    intro why h
    unfold insertLoop at h
    rw [checkAddressClashData_listed c address data family hf] at h
    simp only [Bool.not_true, Bool.false_eq_true, if_false] at h
    split at h
    · cases h
      exact ⟨by decide, by decide⟩
    · split at h
      · cases h
      · split at h
        · cases h
        · rename_i why' hrec
          cases h
          exact ih _ hrec

theorem wordLoop_listed (c : Consts) (d : Driver) (family : Family) (dev : PicDevice)
    (byteCount : Nat) (hf : family ≠ Family.dsPIC30F) :
    ∀ (fuel charCount address : Nat) (lineStream : List Char) (rows : List MemRow)
      (why : ParseAbort),
      wordLoop c d family dev byteCount fuel charCount address lineStream rows
        = some (Except.error why) → NoBootClash why := by
  intro fuel
  induction fuel with
  | zero => intro charCount address lineStream rows why h; simp [wordLoop] at h
  | succ fuel ih =>
    intro charCount address lineStream rows why h
    unfold wordLoop at h
    split at h
    · split at h
      · cases h
        exact ⟨by decide, by decide⟩
      · split at h
        · rename_i why' hins
          cases h
          exact insertLoop_listed c d family dev _ _ hf _ _ hins
        · cases h
          exact ⟨by decide, by decide⟩
        · exact ih _ _ _ _ _ h
    · cases h

theorem parseLine_listed (c : Consts) (d : Driver) (family : Family) (dev : PicDevice)
    (hf : family ≠ Family.dsPIC30F) (line : List Char) (extAddr : Nat) (rows : List MemRow)
    (why : ParseAbort)
    (h : parseLine c d family dev line extAddr rows = some (Except.error why)) :
    NoBootClash why := by
  unfold parseLine at h
  simp only at h
  split at h
  · cases h
    exact ⟨by decide, by decide⟩
  · split at h
    · cases h
      exact ⟨by decide, by decide⟩
    · split at h
      · cases h
        exact ⟨by decide, by decide⟩
      · split at h
        · rw [checkAddressClash_listed _ family hf] at h
          simp only [Bool.not_true, Bool.false_eq_true, if_false] at h
          split at h
          · cases h
          · rename_i why' hw
            cases h
            exact wordLoop_listed c d family dev _ hf _ _ _ _ _ _ hw
          · cases h
        · split at h
          · cases h
          · split at h
            · split at h
              · cases h
                exact ⟨by decide, by decide⟩
              · cases h
            · cases h
              exact ⟨by decide, by decide⟩

theorem parseLines_listed (c : Consts) (d : Driver) (family : Family) (dev : PicDevice)
    (hf : family ≠ Family.dsPIC30F) :
    ∀ (lines : List String) (extAddr : Nat) (rows : List MemRow) (why : ParseAbort),
      parseLines c d family dev lines extAddr rows = some (Except.error why) →
      NoBootClash why := by
  intro lines
  induction lines with
  | nil => intro extAddr rows why h; simp [parseLines] at h
  | cons line rest ih =>
    intro extAddr rows why h
    unfold parseLines at h
    split at h
    · exact ih _ _ _ h
    · split at h
      · cases h
      · rename_i why' hl
        cases h
        exact parseLine_listed c d family dev hf _ _ _ _ hl
      · exact ih _ _ _ h

/-- C3.  On the code, a device of a listed family never makes `programHexFile` stop
with a page clash or a reserved-word clash, whatever the hex stream holds.  For a
PIC24H with a version-3 bootloader, the stream `:020400000000FA` (the word `0x0000`
at word address `0x200`, inside `[0x200, PROGRAM_START)`) is parsed without an abort
and the call goes on to hand five rows to `sendData` and to reset the device, where
the claim asks for an abort with no `sendData`.  The same stream on a dsPIC30F is
stopped by the reserved-word check. -/
theorem programHexFile_reserved_word_not_rejected :
    (∀ (c : Consts) (d : Driver) (w : World) (hexFile : Option (List String))
        (dev : PicDevice), d.current = some dev → dev.family ≠ Family.dsPIC30F →
        (programHexFile c d w hexFile).1 ≠ Exit.parseAbort ParseAbort.pageClash
        ∧ (programHexFile c d w hexFile).1 ≠ Exit.parseAbort ParseAbort.dataClash)
    ∧ (programHexFile sampleConsts (sampleDriver Family.PIC24H) (sampleWorld [3, 1, 1])
        (some [":020400000000FA", ":00000001FF"])).1 = Exit.returned
    ∧ ((programHexFile sampleConsts (sampleDriver Family.PIC24H) (sampleWorld [3, 1, 1])
        (some [":020400000000FA", ":00000001FF"])).2.2.tx.filter fun x =>
          match x with
          | Wire.sendData _ => true
          | _ => false).length = 5
    ∧ (programHexFile sampleConsts (sampleDriver Family.PIC24H) (sampleWorld [3, 1, 1])
        (some [":020400000000FA", ":00000001FF"])).2.2.tx.getLast?
        = some (Wire.cmd Command.RESET)
    ∧ (programHexFile sampleConsts (sampleDriver Family.dsPIC30F) (sampleWorld [3, 1, 1])
        (some [":020400000000FA", ":00000001FF"])).1
        = Exit.parseAbort ParseAbort.dataClash := by
  refine ⟨?_, by decide, by decide, by decide, by decide⟩
  intro c d w hexFile dev hcur hf
  rcases programHexFile_cases c d w hexFile with
    ⟨hnone, -⟩ | ⟨dev1, d1, w1, hcur', -, -, -,
      ⟨-, hr⟩ | ⟨lines, why', -, hparse, hr⟩ | ⟨lines, mem, -, -, hr⟩⟩
  · rw [hnone] at hcur
    cases hcur
  · rw [hr]
    exact ⟨by simp, by simp⟩
  · rw [hcur] at hcur'
    cases hcur'
    rw [hr]
    have := parseLines_listed c d1 dev.family dev hf _ _ _ _ hparse
    exact ⟨fun h => this.1 (by cases h; rfl), fun h => this.2 (by cases h; rfl)⟩
  · rw [hr]
    rcases programStage_exit c d1 w1 dev1.family dev1 mem with he | he | he <;>
      rw [he] <;> exact ⟨by simp, by simp⟩

/-! ## Calls without an identified device -/

/-- C11.  Without an identified device (the driver is fresh, or the last `readDevice`
found no match, so that `currentDevice` is null), `getVersion` and `programHexFile`
throw a logic error, write nothing to the port, read nothing from it and leave the
driver, with `firmwareVersion` and `configBitsEnabled`, as it was.  With an
identified device `getVersion` returns and does not throw. -/
theorem no_device_logicError :
    (∀ (c : Consts) (d : Driver) (w : World) (hexFile : Option (List String)),
      d.currentDevice = none →
        getVersion c d w = (Exit.logicError, d, w)
        ∧ programHexFile c d w hexFile = (Exit.logicError, d, w))
    ∧ (∀ (devices : List PicDevice) (callback : Bool),
        (Driver.new devices callback).currentDevice = none)
    ∧ (∀ (d : Driver) (w : World), (readDevice d w).1 = none →
        (readDevice d w).2.1.currentDevice = none)
    ∧ (∀ (c : Consts) (d : Driver) (w : World) (dev : PicDevice), d.current = some dev →
        (getVersion c d w).1 = Exit.returned)
    ∧ getVersion sampleConsts (Driver.new [sampleDevice Family.PIC24H] true)
        (sampleWorld [3, 1, 1])
        = (Exit.logicError, Driver.new [sampleDevice Family.PIC24H] true,
            sampleWorld [3, 1, 1])
    ∧ (getVersion sampleConsts (sampleDriver Family.PIC24H) (sampleWorld [3, 1, 1])).1
        = Exit.returned := by
  refine ⟨?_, fun _ _ => rfl, ?_, ?_, rfl, by decide⟩
  · intro c d w hexFile hnull
    have hcur : d.current = none := by simp [Driver.current, hnull]
    have hgv : getVersion c d w = (Exit.logicError, d, w) := by
      simp [getVersion, hcur]
    exact ⟨hgv, by simp [programHexFile, hgv]⟩
  · intro d w hnone
    rw [readDevice_eq] at hnone ⊢
    cases hloop : readDeviceLoop ((responseByte w 1 <<< 8) ||| responseByte w 0)
        (responseByte w 5 >>> 4) ((responseByte w 5 <<< 8) ||| responseByte w 4)
        d.devices with
    | none => rfl
    | some r =>
      obtain ⟨i, devices⟩ := r
      rw [hloop] at hnone
      obtain ⟨dev, hget, -, -, -, hset⟩ := readDeviceLoop_some _ _ _ _ _ _ hloop
      have hlt : i < d.devices.length := by
        rcases Nat.lt_or_ge i d.devices.length with h | h
        · exact h
        · rw [List.getElem?_eq_none h] at hget
          cases hget
      simp [Driver.current, hset, List.getElem?_set, hlt] at hnone
  · intro c d w dev hcur
    rcases getVersion_cases c d w with ⟨hnone, -⟩ | ⟨dev1, d1, w1, -, hgv, -, -⟩
    · rw [hnone] at hcur
      cases hcur
    · rw [hgv]

/-! ## The inserted words -/

/-- A successful turn of the row loop: both data checks passed at the address and
the data of the word, and the word went into the first row that accepts it. -/
theorem insertLoop_ok_true (c : Consts) (d : Driver) (family : Family) (dev : PicDevice)
    (address data : Nat) :
    ∀ (rows rows' : List MemRow),
      insertLoop c d family dev address data rows = Except.ok (true, rows') →
      checkAddressClashData c address data family = true
      ∧ checkAddressClashConfig d address data family dev.configPage dev.configWord = true
      ∧ rows' = insertFirst address data rows := by
  intro rows
  induction rows with
  | nil => intro rows' h; simp [insertLoop] at h
  | cons row rest ih =>
    intro rows' h
    unfold insertLoop at h
    split at h
    · cases h
    · rename_i h1
      split at h
      · cases h
      · rename_i h2
        have h1' : checkAddressClashData c address data family = true := by
          simpa using h1
        have h2' : checkAddressClashConfig d address data family dev.configPage
            dev.configWord = true := by
          simpa using h2
        refine ⟨h1', h2', ?_⟩
        split at h
        · rename_i row' hins
          simp only [Except.ok.injEq, Prod.mk.injEq, true_and] at h
          rw [← h]
          simp [insertFirst, hins]
        · rename_i row' hins
          split at h
          · rename_i inserted rest' hrec
            simp only [Except.ok.injEq, Prod.mk.injEq] at h
            obtain ⟨hi, hr⟩ := h
            subst hi
            rw [← hr, (ih rest' hrec).2.2]
            simp [insertFirst, hins]
          · cases h

/-- A clash reported by one of the two data checks stops the row loop at its first
turn, before any `insertData`. -/
theorem insertLoop_clash (c : Consts) (d : Driver) (family : Family) (dev : PicDevice)
    (address data : Nat) (row : MemRow) (rest : List MemRow) :
    (checkAddressClashData c address data family = false →
      insertLoop c d family dev address data (row :: rest)
        = Except.error ParseAbort.dataClash)
    ∧ (checkAddressClashData c address data family = true →
      checkAddressClashConfig d address data family dev.configPage dev.configWord = false →
      insertLoop c d family dev address data (row :: rest)
        = Except.error ParseAbort.configClash) := by
  constructor
  · intro h
    simp [insertLoop, h]
  · intro h1 h2
    simp [insertLoop, h1, h2]

theorem wordLoopLog_checked (c : Consts) (d : Driver) (family : Family) (dev : PicDevice)
    (byteCount : Nat) :
    ∀ (fuel charCount address : Nat) (lineStream : List Char) (rows : List MemRow),
      ∀ p ∈ wordLoopLog c d family dev byteCount fuel charCount address lineStream rows,
        checkAddressClashData c p.1 p.2 family = true
        ∧ checkAddressClashConfig d p.1 p.2 family dev.configPage dev.configWord = true := by
  intro fuel
  induction fuel with
  | zero => intro charCount address lineStream rows p hp; simp [wordLoopLog] at hp
  | succ fuel ih =>
    intro charCount address lineStream rows p hp
    unfold wordLoopLog at hp
    split at hp
    · split at hp
      · simp at hp
      · split at hp
        · rename_i rows' hins
          rcases List.mem_cons.mp hp with rfl | hp
          · have := insertLoop_ok_true c d family dev _ _ _ _ hins
            exact ⟨this.1, this.2.1⟩
          · exact ih _ _ _ _ p hp
        · simp at hp
    · simp at hp

theorem wordLoop_replay (c : Consts) (d : Driver) (family : Family) (dev : PicDevice)
    (byteCount : Nat) :
    ∀ (fuel charCount address : Nat) (lineStream : List Char) (rows rows' : List MemRow),
      wordLoop c d family dev byteCount fuel charCount address lineStream rows
        = some (Except.ok rows') →
      rows' = replay
        (wordLoopLog c d family dev byteCount fuel charCount address lineStream rows) rows := by
  intro fuel
  induction fuel with
  | zero => intro charCount address lineStream rows rows' h; simp [wordLoop] at h
  | succ fuel ih =>
    intro charCount address lineStream rows rows' h
    unfold wordLoop at h
    unfold wordLoopLog
    split at h
    · rename_i hlt
      rw [if_pos hlt]
      split at h
      · cases h
      · rename_i data rest hparse
        try simp only [hparse]
        split at h
        · cases h
        · cases h
        · rename_i rows1 hins
          simp only [hins]
          rw [ih _ _ _ _ _ h, (insertLoop_ok_true c d family dev _ _ _ _ hins).2.2]
          rfl
    · rename_i hge
      rw [if_neg hge]
      simp only [Option.some.injEq, Except.ok.injEq] at h
      rw [← h]
      rfl

theorem parseLineLog_checked (c : Consts) (d : Driver) (family : Family) (dev : PicDevice)
    (line : List Char) (extAddr : Nat) (rows : List MemRow) :
    ∀ p ∈ parseLineLog c d family dev line extAddr rows,
      checkAddressClashData c p.1 p.2 family = true
      ∧ checkAddressClashConfig d p.1 p.2 family dev.configPage dev.configWord = true := by
  intro p hp
  unfold parseLineLog at hp
  split at hp
  · simp at hp
  · split at hp
    · simp at hp
    · split at hp
      · simp at hp
      · split at hp
        · split at hp
          · simp at hp
          · exact wordLoopLog_checked c d family dev _ _ _ _ _ _ p hp
        · simp at hp

theorem parseLine_replay (c : Consts) (d : Driver) (family : Family) (dev : PicDevice)
    (line : List Char) (extAddr : Nat) (rows : List MemRow) (extAddr' : Nat)
    (rows' : List MemRow)
    (h : parseLine c d family dev line extAddr rows = some (Except.ok (extAddr', rows'))) :
    rows' = replay (parseLineLog c d family dev line extAddr rows) rows := by
  unfold parseLine at h
  unfold parseLineLog
  simp only at h
  split at h
  · cases h
  · rename_i byteCount s1 hp1
    try simp only [hp1]
    split at h
    · cases h
    · rename_i address s2 hp2
      try simp only [hp2]
      split at h
      · cases h
      · rename_i recordType s3 hp3
        try simp only [hp3]
        split at h
        · rename_i h0
          rw [if_pos h0]
          split at h
          · cases h
          · rename_i hpage
            rw [if_neg hpage]
            split at h
            · cases h
            · cases h
            · rename_i rows1 hw
              simp only [Option.some.injEq, Except.ok.injEq, Prod.mk.injEq] at h
              rw [← h.2]
              exact wordLoop_replay c d family dev _ _ _ _ _ _ _ hw
        · rename_i h0
          rw [if_neg h0]
          split at h
          · simp only [Option.some.injEq, Except.ok.injEq, Prod.mk.injEq] at h
            rw [← h.2]
            rfl
          · split at h
            · split at h
              · cases h
              · simp only [Option.some.injEq, Except.ok.injEq, Prod.mk.injEq] at h
                rw [← h.2]
                rfl
            · cases h

theorem replay_append (ws ws' : List (Nat × Nat)) :
    ∀ rows : List MemRow, replay (ws ++ ws') rows = replay ws' (replay ws rows) := by
  induction ws with
  | nil => intro rows; rfl
  | cons p ws ih =>
    intro rows
    obtain ⟨a, v⟩ := p
    simp only [List.cons_append, replay]
    exact ih _

theorem parseLinesLog_checked (c : Consts) (d : Driver) (family : Family) (dev : PicDevice) :
    ∀ (lines : List String) (extAddr : Nat) (rows : List MemRow),
      ∀ p ∈ parseLinesLog c d family dev lines extAddr rows,
        checkAddressClashData c p.1 p.2 family = true
        ∧ checkAddressClashConfig d p.1 p.2 family dev.configPage dev.configWord = true := by
  intro lines
  induction lines with
  | nil => intro extAddr rows p hp; simp [parseLinesLog] at hp
  | cons line rest ih =>
    intro extAddr rows p hp
    unfold parseLinesLog at hp
    split at hp
    · exact ih _ _ p hp
    · rcases List.mem_append.mp hp with hp | hp
      · exact parseLineLog_checked c d family dev _ _ _ p hp
      · split at hp
        · exact ih _ _ p hp
        · simp at hp

theorem parseLines_replay (c : Consts) (d : Driver) (family : Family) (dev : PicDevice) :
    ∀ (lines : List String) (extAddr : Nat) (rows rows' : List MemRow),
      parseLines c d family dev lines extAddr rows = some (Except.ok rows') →
      rows' = replay (parseLinesLog c d family dev lines extAddr rows) rows := by
  intro lines
  induction lines with
  | nil =>
    intro extAddr rows rows' h
    simp only [parseLines, Option.some.injEq, Except.ok.injEq] at h
    rw [← h]
    rfl
  | cons line rest ih =>
    intro extAddr rows rows' h
    unfold parseLines at h
    unfold parseLinesLog
    split at h
    · rename_i hempty
      rw [if_pos hempty]
      exact ih _ _ _ h
    · rename_i hempty
      rw [if_neg hempty]
      split at h
      · cases h
      · cases h
      · rename_i extAddr1 rows1 hl
        simp only [hl]
        rw [replay_append, ← parseLine_replay c d family dev _ _ _ _ _ hl]
        exact ih _ _ _ h

theorem wordLoopLog_head (c : Consts) (d : Driver) (family : Family) (dev : PicDevice)
    (byteCount fuel charCount address : Nat) (lineStream : List Char) (rows : List MemRow)
    (p : Nat × Nat) (rest : List (Nat × Nat))
    (h : wordLoopLog c d family dev byteCount fuel charCount address lineStream rows
      = p :: rest) : p.1 = address := by
  cases fuel with
  | zero => simp [wordLoopLog] at h
  | succ fuel =>
    unfold wordLoopLog at h
    split at h
    · split at h
      · cases h
      · split at h
        · simp only [List.cons.injEq] at h
          rw [← h.1]
        · cases h
    · cases h

theorem parseLineLog_head (c : Consts) (d : Driver) (family : Family) (dev : PicDevice)
    (line : List Char) (extAddr : Nat) (rows : List MemRow) (p : Nat × Nat)
    (rest : List (Nat × Nat))
    (h : parseLineLog c d family dev line extAddr rows = p :: rest) :
    checkAddressClash p.1 family = true := by
  unfold parseLineLog at h
  split at h
  · cases h
  · split at h
    · cases h
    · split at h
      · cases h
      · split at h
        · split at h
          · cases h
          · rename_i hpage
            rw [wordLoopLog_head c d family dev _ _ _ _ _ _ p rest h]
            simpa using hpage
        · cases h

/-! ## The extended address -/

theorem parseHeader_some (line : List Char) (n r t : Nat) (s : List Char)
    (h : parseHeader line = some (n, r, t, s)) :
    ∃ s1 s2, parseHex 2 (line.drop 1) = some (n, s1) ∧ parseHex 4 s1 = some (r, s2)
      ∧ parseHex 2 s2 = some (t, s) := by
  unfold parseHeader at h
  split at h
  · cases h
  · rename_i n' s1 h1
    split at h
    · cases h
    · rename_i r' s2 h2
      split at h
      · cases h
      · rename_i t' s3 h3
        simp only [Option.some.injEq, Prod.mk.injEq] at h
        obtain ⟨rfl, rfl, rfl, rfl⟩ := h
        exact ⟨s1, s2, h1, h2, h3⟩

/-- The body of the line loop, once the header of the line is known. -/
theorem parseLine_of_header (c : Consts) (d : Driver) (family : Family) (dev : PicDevice)
    (line : List Char) (extAddr : Nat) (rows : List MemRow) (n r t : Nat) (s : List Char)
    (h : parseHeader line = some (n, r, t, s)) :
    parseLine c d family dev line extAddr rows =
      if t = 0 then
        if !checkAddressClash ((r + extAddr) % 2 ^ 32 / 2) family then
          some (Except.error ParseAbort.pageClash)
        else
          match wordLoop c d family dev n (s.length + 1) 0 ((r + extAddr) % 2 ^ 32 / 2)
              s rows with
          | none => none
          | some (Except.error why) => some (Except.error why)
          | some (Except.ok ppMemory) => some (Except.ok (extAddr, ppMemory))
      else if t = 1 then some (Except.ok (extAddr, rows))
      else if t = 4 then
        match parseHex 4 s with
        | none => some (Except.error ParseAbort.malformedLine)
        | some (v, _) => some (Except.ok ((v <<< 16) % 2 ^ 32, rows))
      else some (Except.error ParseAbort.unknownRecord) := by
  obtain ⟨s1, s2, h1, h2, h3⟩ := parseHeader_some line n r t s h
  simp only [parseLine, h1, h2, h3]

/-- The words of one line, once the header of the line is known. -/
theorem parseLineLog_of_header (c : Consts) (d : Driver) (family : Family)
    (dev : PicDevice) (line : List Char) (extAddr : Nat) (rows : List MemRow)
    (n r t : Nat) (s : List Char) (h : parseHeader line = some (n, r, t, s)) :
    parseLineLog c d family dev line extAddr rows =
      if t = 0 then
        if !checkAddressClash ((r + extAddr) % 2 ^ 32 / 2) family then []
        else wordLoopLog c d family dev n (s.length + 1) 0 ((r + extAddr) % 2 ^ 32 / 2)
          s rows
      else [] := by
  obtain ⟨s1, s2, h1, h2, h3⟩ := parseHeader_some line n r t s h
  simp only [parseLineLog, h1, h2, h3]

theorem hexDigit_lt (ch : Char) (v : Nat) (h : hexDigit ch = some v) : v < 16 := by
  unfold hexDigit at h
  split at h
  · simp only [Option.some.injEq] at h
    omega
  · split at h
    · simp only [Option.some.injEq] at h
      omega
    · split at h
      · simp only [Option.some.injEq] at h
        omega
      · cases h

theorem parseHexFrom_lt :
    ∀ (digits acc : Nat) (s : List Char) (v : Nat) (rest : List Char),
      parseHexFrom acc digits s = some (v, rest) → v < (acc + 1) * 16 ^ digits := by
  intro digits
  induction digits with
  | zero =>
    intro acc s v rest h
    simp only [parseHexFrom, Option.some.injEq, Prod.mk.injEq] at h
    omega
  | succ digits ih =>
    intro acc s v rest h
    cases s with
    | nil => simp [parseHexFrom] at h
    | cons ch s =>
      unfold parseHexFrom at h
      split at h
      · cases h
      · rename_i x hx
        have h1 := ih _ _ _ _ h
        have h2 := hexDigit_lt ch x hx
        calc v < (acc * 16 + x + 1) * 16 ^ digits := h1
          _ ≤ ((acc + 1) * 16) * 16 ^ digits := Nat.mul_le_mul_right _ (by omega)
          _ = (acc + 1) * 16 ^ (digits + 1) := by rw [Nat.pow_succ]; ring

theorem parseHex_lt (digits : Nat) (s : List Char) (v : Nat) (rest : List Char)
    (h : parseHex digits s = some (v, rest)) : v < 16 ^ digits := by
  have := parseHexFrom_lt digits 0 s v rest h
  simpa using this

theorem parseHeader_lt (line : List Char) (n r t : Nat) (s : List Char)
    (h : parseHeader line = some (n, r, t, s)) : n < 256 ∧ r < 65536 ∧ t < 256 := by
  obtain ⟨s1, s2, h1, h2, h3⟩ := parseHeader_some line n r t s h
  have a := parseHex_lt 2 _ _ _ h1
  have b := parseHex_lt 4 _ _ _ h2
  have e := parseHex_lt 2 _ _ _ h3
  norm_num at a b e
  exact ⟨a, b, e⟩

/-- The addresses of the inserted words are consecutive 32-bit addresses. -/
theorem wordLoopLog_addresses (c : Consts) (d : Driver) (family : Family) (dev : PicDevice)
    (byteCount : Nat) :
    ∀ (fuel charCount address : Nat) (lineStream : List Char) (rows : List MemRow),
      address < 2 ^ 32 →
      (wordLoopLog c d family dev byteCount fuel charCount address lineStream rows).map
          Prod.fst
        = (List.range (wordLoopLog c d family dev byteCount fuel charCount address
            lineStream rows).length).map fun k => (address + k) % 2 ^ 32 := by
  intro fuel
  induction fuel with
  | zero => intro charCount address lineStream rows _; simp [wordLoopLog]
  | succ fuel ih =>
    intro charCount address lineStream rows hlt
    unfold wordLoopLog
    split
    · split
      · simp
      · split
        · rename_i data rest hparse rows1 hins
          simp only [List.map_cons, List.length_cons, List.range_succ_eq_map, List.map_map]
          rw [ih _ _ _ _ (Nat.mod_lt _ (by decide))]
          congr 1
          · simp only [Nat.add_zero]
            exact (Nat.mod_eq_of_lt hlt).symm
          · apply List.map_congr_left
            intro k _
            simp only [Function.comp]
            omega
        · simp
    · simp

theorem takeWords_length :
    ∀ (count address : Nat) (lineStream : List Char) (ws : List (Nat × Nat)),
      takeWords count address lineStream = some ws → ws.length = count := by
  intro count
  induction count with
  | zero =>
    intro address lineStream ws h
    simp only [takeWords, Option.some.injEq] at h
    rw [← h]
    rfl
  | succ count ih =>
    intro address lineStream ws h
    unfold takeWords at h
    split at h
    · cases h
    · split at h
      · cases h
      · rename_i rest hrest
        simp only [Option.some.injEq] at h
        rw [← h, List.length_cons, ih _ _ _ hrest]

/-- The word loop of a record with a byte count of at most 126: when it ends
normally with `remaining` turns to go, it has read exactly the next `remaining`
words of the line and inserted each of them. -/
theorem wordLoop_bounded (c : Consts) (d : Driver) (family : Family) (dev : PicDevice)
    (byteCount : Nat) (hn : byteCount ≤ 126) :
    ∀ (remaining turns fuel address : Nat) (lineStream : List Char)
      (rows rows' : List MemRow),
      turns + remaining = (byteCount + 1) / 2 →
      wordLoop c d family dev byteCount fuel (4 * turns) address lineStream rows
        = some (Except.ok rows') →
      takeWords remaining address lineStream
        = some (wordLoopLog c d family dev byteCount fuel (4 * turns) address
            lineStream rows) := by
  intro remaining
  induction remaining with
  | zero =>
    intro turns fuel address lineStream rows rows' hsum h
    cases fuel with
    | zero => simp [wordLoop] at h
    | succ fuel =>
      have hge : ¬ 4 * turns < byteCount * 2 := by omega
      simp only [takeWords, wordLoopLog, hge, if_false]
  | succ remaining ih =>
    intro turns fuel address lineStream rows rows' hsum h
    cases fuel with
    | zero => simp [wordLoop] at h
    | succ fuel =>
      have hlt : 4 * turns < byteCount * 2 := by omega
      unfold wordLoop at h
      unfold wordLoopLog
      unfold takeWords
      rw [if_pos hlt] at h
      rw [if_pos hlt]
      cases hparse : parseHex 4 lineStream with
      | none => simp [hparse] at h
      | some pr =>
        obtain ⟨data, rest⟩ := pr
        simp only [hparse] at h ⊢
        have hnext : (4 * turns + 4) % 256 = 4 * (turns + 1) := by omega
        rw [hnext] at h ⊢
        cases hins : insertLoop c d family dev address data rows with
        | error why => simp [hins] at h
        | ok r =>
          obtain ⟨inserted, rows1⟩ := r
          cases inserted with
          | false => simp [hins] at h
          | true =>
            simp only [hins] at h ⊢
            rw [ih (turns + 1) fuel _ rest rows1 rows' (by omega) h]

/-- The word loop of a record with a byte count of 127 or more never ends normally:
the 8-bit counter is a multiple of 4 below 256, hence at most 252, and the bound is
at least 254. -/
theorem wordLoop_never_ok (c : Consts) (d : Driver) (family : Family) (dev : PicDevice)
    (byteCount : Nat) (hn : 127 ≤ byteCount) :
    ∀ (fuel charCount address : Nat) (lineStream : List Char) (rows rows' : List MemRow),
      charCount % 4 = 0 → charCount < 256 →
      wordLoop c d family dev byteCount fuel charCount address lineStream rows
        ≠ some (Except.ok rows') := by
  intro fuel
  induction fuel with
  | zero => intro charCount address lineStream rows rows' _ _; simp [wordLoop]
  | succ fuel ih =>
    intro charCount address lineStream rows rows' h4 h256
    have hlt : charCount < byteCount * 2 := by omega
    unfold wordLoop
    rw [if_pos hlt]
    split
    · simp
    · split
      · simp
      · simp
      · exact ih _ _ _ _ _ (by omega) (Nat.mod_lt _ (by decide))

/-- C13.  A data record with byte count `n <= 126` and raw address `r`, read under the
offset `w * 2^16` and processed without an abort, makes `programHexFile` read exactly
`(n + 1) / 2` words of four hexadecimal characters from the line (that is `n / 2` for
an even `n`, one more for an odd `n`) and insert the k-th of them at the word address
`(r + w * 2^16) / 2 + k`; the image after the record is the image before it with
exactly these words inserted, and the offset is unchanged. -/
theorem dataRecord_words (c : Consts) (d : Driver) (family : Family) (dev : PicDevice)
    (line : List Char) (rows : List MemRow) (n r : Nat) (s : List Char) (w e' : Nat)
    (rows' : List MemRow) (hh : parseHeader line = some (n, r, 0, s)) (hw : w < 2 ^ 16)
    (hn : n ≤ 126)
    (hok : parseLine c d family dev line (w * 2 ^ 16) rows
      = some (Except.ok (e', rows'))) :
    takeWords ((n + 1) / 2) ((r + w * 2 ^ 16) / 2) s
        = some (parseLineLog c d family dev line (w * 2 ^ 16) rows)
    ∧ (parseLineLog c d family dev line (w * 2 ^ 16) rows).length = (n + 1) / 2
    ∧ (parseLineLog c d family dev line (w * 2 ^ 16) rows).map Prod.fst
        = (List.range ((n + 1) / 2)).map (fun k => (r + w * 2 ^ 16) / 2 + k)
    ∧ rows' = replay (parseLineLog c d family dev line (w * 2 ^ 16) rows) rows
    ∧ e' = w * 2 ^ 16 := by
  have hr := (parseHeader_lt line n r 0 s hh).2.1
  have hw' : w < 65536 := by simpa using hw
  have hmod : (r + w * 2 ^ 16) % 2 ^ 32 = r + w * 2 ^ 16 := by
    apply Nat.mod_eq_of_lt
    omega
  have hrep := parseLine_replay c d family dev line _ rows e' rows' hok
  rw [parseLine_of_header c d family dev line _ rows n r 0 s hh, hmod] at hok
  rw [parseLineLog_of_header c d family dev line _ rows n r 0 s hh, hmod] at hrep ⊢
  simp only [if_true] at hok hrep ⊢
  split at hok
  · cases hok
  · rename_i hpage
    have hpage' : checkAddressClash ((r + w * 2 ^ 16) / 2) family = true := by
      simpa using hpage
    simp only [hpage', Bool.not_true, Bool.false_eq_true, if_false] at hrep ⊢
    split at hok
    · cases hok
    · cases hok
    · rename_i rows1 hloop
      simp only [Option.some.injEq, Except.ok.injEq, Prod.mk.injEq] at hok
      have htake := wordLoop_bounded c d family dev n hn ((n + 1) / 2) 0 (s.length + 1)
        ((r + w * 2 ^ 16) / 2) s rows rows1 (by omega) hloop
      simp only [Nat.mul_zero] at htake
      have hlen := takeWords_length _ _ _ _ htake
      have haddr := wordLoopLog_addresses c d family dev n (s.length + 1) 0
        ((r + w * 2 ^ 16) / 2) s rows (by omega)
      refine ⟨htake, hlen, ?_, hrep, hok.1.symm⟩
      rw [haddr, hlen]
      apply List.map_congr_left
      intro k hk
      have hk' : k < (n + 1) / 2 := List.mem_range.mp hk
      apply Nat.mod_eq_of_lt
      omega

/-- The witness of C13: the record `:04180000ABCD1234` on an image of one row. -/
theorem dataRecord_words_witness :
    parseLineLog sampleConsts (sampleDriver Family.PIC24H) Family.PIC24H
        (sampleDevice Family.PIC24H) ":04180000ABCD1234".data (0 * 2 ^ 16)
        [MemRow.create MemType.Program 0xC00 0 Family.PIC24H 4]
      = [(0xC00, 0xABCD), (0xC01, 0x1234)]
    ∧ (parseLineLog sampleConsts (sampleDriver Family.PIC24H) Family.PIC24H
        (sampleDevice Family.PIC24H) ":04180000ABCD1234".data (0 * 2 ^ 16)
        [MemRow.create MemType.Program 0xC00 0 Family.PIC24H 4]).length = (4 + 1) / 2 :=
  ⟨by decide,
    (dataRecord_words sampleConsts (sampleDriver Family.PIC24H) Family.PIC24H
      (sampleDevice Family.PIC24H) ":04180000ABCD1234".data
      [MemRow.create MemType.Program 0xC00 0 Family.PIC24H 4] 4 0x1800
      "ABCD1234".data 0 (0 * 2 ^ 16)
      (replay [(0xC00, 0xABCD), (0xC01, 0x1234)]
        [MemRow.create MemType.Program 0xC00 0 Family.PIC24H 4])
      (by decide) (by decide) (by decide) (by rfl)).2.1⟩

/-- The counterexample of C13: the record `:011800001234` has the byte count 1, so
that `n / 2` is 0, yet one word is read and inserted at word address `0xC00`. -/
theorem dataRecord_odd_count :
    parseHeader ":011800001234".data = some (1, 0x1800, 0, "1234".data)
    ∧ insertedWords sampleConsts (sampleDriver Family.PIC24H) (sampleWorld [3, 1, 1])
        (some [":011800001234"]) = [(0xC00, 0x1234)]
    ∧ (programHexFile sampleConsts (sampleDriver Family.PIC24H) (sampleWorld [3, 1, 1])
        (some [":011800001234"])).1 = Exit.returned
    ∧ 1 / 2 = 0 := by
  decide

/-! ## The 8-bit counter of the word loop -/

theorem parseHeader_ne_nil (line : List Char) (hd : Nat × Nat × Nat × List Char)
    (h : parseHeader line = some hd) : line ≠ [] := by
  intro hempty
  rw [hempty] at h
  simp [parseHeader, parseHex, parseHexFrom] at h

theorem readData_readBack (r : MemRow) (w : World) :
    (r.readData w).2.2.readBack = w.readBack := by
  unfold MemRow.readData
  simp only
  split <;> rfl

theorem ite_giveProgress_readBack (d : Driver) (w : World) (b : Prop) [Decidable b]
    (status : Status) (percent : Nat) :
    (if b then giveProgress d w status percent else w).readBack = w.readBack := by
  split
  · exact (giveProgress_input d w _ _).2.2.2
  · rfl

theorem readData_nack (r : MemRow) (w : World) (h : w.readBack r = none) :
    (r.readData w).1 = false := by
  have h' : (w.write (Wire.readData r)).readBack r = none := h
  simp [MemRow.readData, h']

/-- When the device answers every read with a negative acknowledgement, the
verification loop ends with `verifyOK` still true. -/
theorem verifyLoop_all_nack (c : Consts) (d : Driver) (family : Family)
    (nonEmptyProgramRows : Nat) :
    ∀ (pairs : List (MemRow × MemRow)) (count : Nat) (w : World) (rows : List MemRow)
      (count' : Nat) (verifyOK : Bool) (w' : World),
      (∀ r, w.readBack r = none) →
      verifyLoop c d family nonEmptyProgramRows pairs count w
        = some (rows, count', verifyOK, w') →
      verifyOK = true := by
  intro pairs
  induction pairs with
  | nil =>
    intro count w rows count' verifyOK w' _ h
    simp only [verifyLoop, Option.some.injEq, Prod.mk.injEq] at h
    exact h.2.2.1.symm
  | cons pair rest ih =>
    obtain ⟨row, snapshot⟩ := pair
    intro count w rows count' verifyOK w' hnack h
    unfold verifyLoop at h
    simp only at h
    have hgp : ∀ r, (if (!row.isEmpty) = true then
          giveProgress d w Status.Verifying
            (100 * (if (!row.isEmpty) = true then count + 1 else count) / nonEmptyProgramRows)
        else w).readBack r = none := by
      intro r
      rw [ite_giveProgress_readBack]
      exact hnack r
    split at h
    · cases h
    · split at h
      · cases h
      · rename_i rows1 n1 ok1 w1 hrec
        simp only [Option.some.injEq, Prod.mk.injEq] at h
        rw [← h.2.2.1]
        exact ih _ _ _ _ _ _ hgp hrec
    · split at h
      · rename_i row1 w1 hread
        have := readData_nack row _ (hgp row)
        rw [hread] at this
        cases this
      · rename_i row1 w1 hread
        have hw1 : ∀ r, w1.readBack r = none := by
          intro r
          have := readData_readBack row (if (!row.isEmpty) = true then
            giveProgress d w Status.Verifying
              (100 * (if (!row.isEmpty) = true then count + 1 else count)
                / nonEmptyProgramRows)
            else w)
          rw [hread] at this
          simp only at this
          rw [this]
          exact hgp r
        split at h
        · cases h
        · rename_i rows1 n1 ok1 w2 hrec
          simp only [Option.some.injEq, Prod.mk.injEq] at h
          rw [← h.2.2.1]
          exact ih _ _ _ _ _ _ hw1 hrec

/-- C14.  On the code a negative acknowledgement of `readData` does not fail the
verification: the branch only reports the problem and `verifyOK` stays true.  With a
device that refuses every read, the verification loop ends with `verifyOK` true, and
the run for a PIC24H with a version-3 bootloader and the stream `:021800001234A0`
reads back two program rows, gets no answer for either, emits no `Error` event and
ends with the completion event `(Idle, 100)`. -/
theorem verify_nack_not_failed :
    (∀ (c : Consts) (d : Driver) (family : Family) (nonEmptyProgramRows : Nat)
        (pairs : List (MemRow × MemRow)) (count : Nat) (w : World) (rows : List MemRow)
        (count' : Nat) (verifyOK : Bool) (w' : World),
        (∀ r, w.readBack r = none) →
        verifyLoop c d family nonEmptyProgramRows pairs count w
          = some (rows, count', verifyOK, w') →
        verifyOK = true)
    ∧ (programHexFile sampleConsts (sampleDriver Family.PIC24H) (sampleWorld [3, 1, 1])
        (some [":021800001234A0"])).2.2.progress
        = [(Status.Programming, 100), (Status.Verifying, 100), (Status.Idle, 100)]
    ∧ ((programHexFile sampleConsts (sampleDriver Family.PIC24H) (sampleWorld [3, 1, 1])
        (some [":021800001234A0"])).2.2.tx.filter fun x =>
          match x with
          | Wire.readData _ => true
          | _ => false).length = 2
    ∧ (∀ r, (sampleWorld [3, 1, 1]).readBack r = none) := by
  refine ⟨?_, by decide, by decide, fun _ => rfl⟩
  intro c d family n pairs count w rows count' verifyOK w' hnack h
  exact verifyLoop_all_nack c d family n pairs count w rows count' verifyOK w' hnack h

/-- The rows the programming loop hands to `sendData`: every row of the image, empty
or not, that is neither a configuration row while config bits are disabled nor
excluded by `shouldSkipRow`, in the order of the image. -/
theorem programLoop_tx_exact (c : Consts) (d : Driver) (family : Family)
    (nonEmptyRows : Nat) :
    ∀ (rows : List MemRow) (count : Nat) (w : World) (count' : Nat) (w' : World),
      programLoop c d family nonEmptyRows rows count w = some (count', w') →
      w'.tx = w.tx ++ (rows.filter (programLoopSends c d family)).map Wire.sendData := by
  intro rows
  induction rows with
  | nil =>
    intro count w count' w' h
    simp only [programLoop, Option.some.injEq, Prod.mk.injEq] at h
    simp [← h.2]
  | cons row rest ih =>
    intro count w count' w' h
    unfold programLoop at h
    simp only at h
    split at h
    · rename_i hcfg
      have hf : programLoopSends c d family row = false := by
        simp [programLoopSends, hcfg.1, hcfg.2]
      rw [List.filter_cons_of_neg (by rw [hf]; simp)]
      rw [ih _ _ _ _ h, ite_giveProgress_tx]
    · rename_i hcfg
      have hg : (!(decide (row.getType = MemType.Configuration) && !d.configBitsEnabled))
          = true := by
        cases hc : d.configBitsEnabled
        · have : ¬ row.getType = MemType.Configuration := by
            intro ht
            exact hcfg ⟨ht, by simp [hc]⟩
          simp [this]
        · simp
      split at h
      · cases h
      · rename_i skip hskip
        cases skip with
        | true =>
          have hf : programLoopSends c d family row = false := by
            simp [programLoopSends, hskip]
          rw [List.filter_cons_of_neg (by rw [hf]; simp)]
          simp only [Bool.not_true, Bool.false_eq_true, if_false] at h
          rw [ih _ _ _ _ h, ite_giveProgress_tx]
        | false =>
          have hf : programLoopSends c d family row = true := by
            unfold programLoopSends
            rw [hg]
            simp [hskip]
          rw [List.filter_cons_of_pos hf]
          simp only [Bool.not_false, if_true] at h
          rw [ih _ _ _ _ h]
          show (_ ++ [Wire.sendData row]) ++ _ = _
          rw [ite_giveProgress_tx]
          simp

/-- C17.  In the programming loop of `programHexFile` the rows handed to `sendData`
are exactly the rows of the image that `shouldSkipRow` does not exclude and that are
not configuration rows while config bits are disabled, in the order of the image;
whether a row is empty plays no part, so empty rows are handed over too. -/
theorem programLoop_sends (c : Consts) (d : Driver) (family : Family) (nonEmptyRows : Nat)
    (rows : List MemRow) (count : Nat) (w : World) (count' : Nat) (w' : World)
    (h : programLoop c d family nonEmptyRows rows count w = some (count', w')) :
    w'.tx = w.tx ++ (rows.filter (programLoopSends c d family)).map Wire.sendData
    ∧ ∀ row, row ∈ rows.filter (programLoopSends c d family) ↔
        (row ∈ rows ∧ shouldSkipRow c d row family = some false
          ∧ ¬ (row.getType = MemType.Configuration ∧ d.configBitsEnabled = false)) := by
  refine ⟨programLoop_tx_exact c d family nonEmptyRows rows count w count' w' h, ?_⟩
  intro row
  simp only [List.mem_filter, programLoopSends, Bool.and_eq_true, Bool.not_eq_true',
    Bool.and_eq_false_imp, decide_eq_true_eq, Bool.not_eq_false']
  constructor
  · rintro ⟨hin, hcfg, hskip⟩
    refine ⟨hin, hskip, ?_⟩
    rintro ⟨ht, hc⟩
    have := hcfg ht
    rw [hc] at this
    cases this
  · rintro ⟨hin, hskip, hcfg⟩
    refine ⟨hin, ?_, hskip⟩
    intro ht
    cases hc : d.configBitsEnabled
    · exact absurd ⟨ht, hc⟩ hcfg
    · rfl

/-- The witness of C17: an image of one empty row at `0xC00` and one at `0`, under a
version-3 bootloader on a PIC24H; the first is sent, the second is skipped. -/
theorem programLoop_sends_witness :
    ((sampleWorld []).write
        (Wire.sendData (MemRow.create MemType.Program 0xC00 0 Family.PIC24H 4))).tx
      = (sampleWorld []).tx ++
        ([MemRow.create MemType.Program 0xC00 0 Family.PIC24H 4,
          MemRow.create MemType.Program 0 0 Family.PIC24H 4].filter
          (programLoopSends sampleConsts
            { sampleDriver Family.PIC24H with firmwareVersion := 3 }
            Family.PIC24H)).map Wire.sendData :=
  (programLoop_sends sampleConsts { sampleDriver Family.PIC24H with firmwareVersion := 3 }
    Family.PIC24H 0
    [MemRow.create MemType.Program 0xC00 0 Family.PIC24H 4,
      MemRow.create MemType.Program 0 0 Family.PIC24H 4] 0 (sampleWorld []) 0
    ((sampleWorld []).write
      (Wire.sendData (MemRow.create MemType.Program 0xC00 0 Family.PIC24H 4)))
    (by rfl)).1

/-- The counterexample of C17: the programming loop on an image of one empty row
hands that row to `sendData`, and the run for the stream `:021800001234A0` hands
four empty rows to `sendData`. -/
theorem programLoop_sends_empty :
    (MemRow.create MemType.Program 0xC00 0 Family.PIC24H 4).isEmpty = true
    ∧ ((programLoop sampleConsts { sampleDriver Family.PIC24H with firmwareVersion := 3 }
        Family.PIC24H 0 [MemRow.create MemType.Program 0xC00 0 Family.PIC24H 4] 0
        (sampleWorld [])).map fun r => r.2.tx)
        = some [Wire.sendData (MemRow.create MemType.Program 0xC00 0 Family.PIC24H 4)]
    ∧ ((programHexFile sampleConsts (sampleDriver Family.PIC24H) (sampleWorld [3, 1, 1])
        (some [":021800001234A0"])).2.2.tx.filter fun x =>
          match x with
          | Wire.sendData row => row.isEmpty
          | _ => false).length = 4 := by
  decide

/-! ## Config bits and the reset command -/

theorem readDevice_configBits (d : Driver) (w : World) :
    (readDevice d w).2.1.configBitsEnabled = d.configBitsEnabled
    ∧ (readDevice d w).2.1.firmwareVersion = d.firmwareVersion := by
  rw [readDevice_eq]
  split <;> exact ⟨rfl, rfl⟩

/-- What `getVersion` does to the two session fields: without a NACK answer
`configBitsEnabled` keeps its value; after a NACK answer the firmware version is 0. -/
theorem getVersion_configBits (c : Consts) (d : Driver) (w : World) :
    (nackAnswered c d w = false →
      (getVersion c d w).2.1.configBitsEnabled = d.configBitsEnabled)
    ∧ (nackAnswered c d w = true → (getVersion c d w).2.1.firmwareVersion = 0) := by
  unfold nackAnswered
  cases hcur : d.current with
  | none => simp [getVersion, hcur]
  | some dev =>
    by_cases hn : w.input w.rpos % 256 = c.NACK
    · simp [getVersion, hcur, World.write, World.readByte, hn]
    · simp only [getVersion, hcur, World.write, World.readByte, hn, if_false]
      constructor
      · intro _
        split <;> rfl
      · intro h
        simp at h

theorem programHexFile_driver (c : Consts) (d : Driver) (w : World)
    (hexFile : Option (List String)) :
    (programHexFile c d w hexFile).2.1 = (getVersion c d w).2.1 := by
  rcases programHexFile_cases c d w hexFile with
    ⟨hcur, hr⟩ | ⟨dev, d1, w1, -, hgv, -, -,
      ⟨-, hr⟩ | ⟨lines, why, -, -, hr⟩ | ⟨lines, mem, -, -, hr⟩⟩
  · rw [hr]
    simp [getVersion, hcur]
  · rw [hr, hgv]
  · rw [hr, hgv]
  · rw [hr, hgv]
    exact (programStage_tx c d1 w1 dev.family dev mem).1

/-- In every reachable state config bits are disabled only after a NACK answer. -/
theorem reach_configBits (c : Consts) (devices : List PicDevice) (callback : Bool) :
    ∀ (b : Bool) (d : Driver), Reach c devices callback b d →
      d.configBitsEnabled = false → b = true := by
  intro b d h
  induction h with
  | init => intro hc; cases hc
  | readDevice w _ ih =>
    intro hc
    rw [(readDevice_configBits _ w).1] at hc
    exact ih hc
  | @getVersion b d w _ ih =>
    intro hc
    cases hn : nackAnswered c d w
    · rw [(getVersion_configBits c d w).1 hn] at hc
      simp [ih hc]
    · simp
  | @programHexFile b d w hexFile _ ih =>
    intro hc
    rw [programHexFile_driver] at hc
    cases hn : nackAnswered c d w
    · rw [(getVersion_configBits c d w).1 hn] at hc
      simp [ih hc]
    · simp

/-- A call of `programHexFile` from a state with config bits enabled writes no
`POR_RESET`. -/
theorem programHexFile_no_por (c : Consts) (d : Driver) (w : World)
    (hexFile : Option (List String)) (hc : d.configBitsEnabled = true) :
    ∃ new, (programHexFile c d w hexFile).2.2.tx = w.tx ++ new
      ∧ Wire.cmd Command.POR_RESET ∉ new := by
  rcases programHexFile_cases c d w hexFile with
    ⟨-, hr⟩ | ⟨dev, d1, w1, -, hgv, hcur1, htx,
      ⟨-, hr⟩ | ⟨lines, why, -, -, hr⟩ | ⟨lines, mem, -, -, hr⟩⟩
  · exact ⟨[], by simp [hr], by simp⟩
  · exact ⟨[Wire.cmd Command.READ_VERSION], by rw [hr]; exact htx, by simp⟩
  · exact ⟨[Wire.cmd Command.READ_VERSION], by rw [hr]; exact htx, by simp⟩
  · rw [hr]
    rcases Nat.lt_or_ge d1.firmwareVersion 3 with hv | hv
    · obtain ⟨-, h2⟩ := programStage_legacy c d1 w1 dev.family dev mem hv
      refine ⟨[Wire.cmd Command.READ_VERSION, Wire.cmd Command.READ_PM, Wire.value 0,
        Wire.value 0, Wire.value 0], by rw [h2, htx]; simp, by simp⟩
    · obtain ⟨-, mid, h2, h3⟩ := programStage_v3 c d1 w1 dev.family dev dev mem hcur1 hv
      have hd1 : d1.configBitsEnabled = true := by
        have hnack : nackAnswered c d w = false := by
          cases hn : nackAnswered c d w
          · rfl
          · have := (getVersion_configBits c d w).2 hn
            rw [hgv] at this
            simp only at this
            omega
        have := (getVersion_configBits c d w).1 hnack
        rw [hgv] at this
        simp only at this
        rw [this, hc]
      rw [hd1] at h2
      simp only [if_true] at h2
      refine ⟨[Wire.cmd Command.READ_VERSION] ++ mid ++ [Wire.cmd Command.RESET],
        by rw [h2, htx]; simp, ?_⟩
      intro hmem
      simp only [List.mem_append, List.mem_singleton, List.mem_cons, List.not_mem_nil,
        or_false] at hmem
      rcases hmem with (hmem | hmem) | hmem
      · cases hmem
      · rcases h3 _ hmem with ⟨row, hx⟩ | ⟨row, hx⟩ <;> cases hx
      · cases hmem

/-- C18.  In every session state reachable from a freshly constructed driver by
calls of `readDevice`, `getVersion` and `programHexFile` with arbitrary answers,
`configBitsEnabled` is false only if one of the calls so far got NACK as the answer
to `READ_VERSION`; directly after such a call the firmware version is 0, and a later
call that gets a version keeps `configBitsEnabled` as it is.  In a session without a
NACK answer `programHexFile` never writes `POR_RESET`. -/
theorem reach_configBits_nack :
    (∀ (c : Consts) (devices : List PicDevice) (callback b : Bool) (d : Driver),
      Reach c devices callback b d → d.configBitsEnabled = false → b = true)
    ∧ (∀ (c : Consts) (d : Driver) (w : World), nackAnswered c d w = true →
        (getVersion c d w).2.1.firmwareVersion = 0)
    ∧ (∀ (c : Consts) (d : Driver) (w : World), nackAnswered c d w = false →
        (getVersion c d w).2.1.configBitsEnabled = d.configBitsEnabled)
    ∧ (∀ (c : Consts) (devices : List PicDevice) (callback : Bool) (d : Driver) (w : World)
        (hexFile : Option (List String)), Reach c devices callback false d →
        ∃ new, (programHexFile c d w hexFile).2.2.tx = w.tx ++ new
          ∧ Wire.cmd Command.POR_RESET ∉ new) := by
  refine ⟨?_, ?_, ?_, ?_⟩
  · intro c devices callback b d h
    exact reach_configBits c devices callback b d h
  · intro c d w h
    exact (getVersion_configBits c d w).2 h
  · intro c d w h
    exact (getVersion_configBits c d w).1 h
  · intro c devices callback d w hexFile h
    apply programHexFile_no_por
    cases hc : d.configBitsEnabled
    · have := reach_configBits c devices callback false d h hc
      cases this
    · rfl

/-- The counterexample of C18: a PIC24F is identified, a first `getVersion` gets
NACK, a second one gets version 3.  The state reached has `configBitsEnabled` false
and `firmwareVersion` 3, and `programHexFile` with a version-3 answer writes
`POR_RESET`. -/
theorem reach_por_reset :
    Reach sampleConsts [sampleDevice Family.PIC24F] true true
      (getVersion sampleConsts sampleAfterNack (sampleWorld [3, 1, 1])).2.1
    ∧ (getVersion sampleConsts sampleAfterNack (sampleWorld [3, 1, 1])).2.1.configBitsEnabled
        = false
    ∧ (getVersion sampleConsts sampleAfterNack (sampleWorld [3, 1, 1])).2.1.firmwareVersion
        = 3
    ∧ sampleAfterNack.firmwareVersion = 0
    ∧ (programHexFile sampleConsts sampleAfterNack (sampleWorld [3, 1, 1])
        (some [":021800001234A0"])).2.2.tx.getLast? = some (Wire.cmd Command.POR_RESET) := by
  refine ⟨?_, by decide, by decide, by decide, by decide⟩
  exact Reach.getVersion (sampleWorld [3, 1, 1])
    (Reach.getVersion (sampleWorld [0])
      (Reach.readDevice (sampleWorld [0x34, 0x12, 0x00, 0x00, 0x07, 0x56, 0x00, 0x00])
        Reach.init))

/-! ## Progress events -/

theorem giveProgress_progress (d : Driver) (w : World) (status : Status) (percent : Nat) :
    (giveProgress d w status percent).progress
      = w.progress ++ (if d.progressCallback = true then [(status, percent)] else []) := by
  unfold giveProgress
  split <;> simp

/-- The events of the programming loop: one for every non-empty row, with the running
count over the divisor. -/
theorem programLoop_progress (c : Consts) (d : Driver) (family : Family)
    (nonEmptyRows : Nat) :
    ∀ (rows : List MemRow) (count : Nat) (w : World) (count' : Nat) (w' : World),
      programLoop c d family nonEmptyRows rows count w = some (count', w') →
      w'.progress = w.progress ++
        (if d.progressCallback = true then
          (List.range (countNonEmpty rows)).map fun j =>
            (Status.Programming, 100 * (count + j + 1) / nonEmptyRows)
        else []) := by
  intro rows
  induction rows with
  | nil =>
    intro count w count' w' h
    simp only [programLoop, Option.some.injEq, Prod.mk.injEq] at h
    simp [← h.2, countNonEmpty]
  | cons row rest ih =>
    intro count w count' w' h
    unfold programLoop at h
    simp only at h
    have hstep : ∀ w1 : World,
        w1.progress = (if (!row.isEmpty) = true then
            giveProgress d w Status.Programming
              (100 * (if (!row.isEmpty) = true then count + 1 else count) / nonEmptyRows)
          else w).progress →
        programLoop c d family nonEmptyRows rest
          (if (!row.isEmpty) = true then count + 1 else count) w1 = some (count', w') →
        w'.progress = w.progress ++
          (if d.progressCallback = true then
            (List.range (countNonEmpty (row :: rest))).map fun j =>
              (Status.Programming, 100 * (count + j + 1) / nonEmptyRows)
          else []) := by
      intro w1 hw1 hrec
      rw [ih _ _ _ _ hrec, hw1]
      cases hempty : row.isEmpty
      · simp only [Bool.not_false, if_true, giveProgress_progress]
        have hc : countNonEmpty (row :: rest) = countNonEmpty rest + 1 := by
          simp [countNonEmpty, hempty]
        rw [hc, List.append_assoc]
        congr 1
        split
        · rw [List.range_succ_eq_map, List.map_cons, List.map_map]
          simp only [List.singleton_append, Nat.add_zero, List.cons.injEq, true_and]
          apply List.map_congr_left
          intro j _
          simp only [Function.comp, Nat.succ_eq_add_one]
          congr 3
          omega
        · rfl
      · simp only [Bool.not_true, Bool.false_eq_true, if_false]
        have hc : countNonEmpty (row :: rest) = countNonEmpty rest := by
          simp [countNonEmpty, hempty]
        rw [hc]
    split at h
    · exact hstep _ rfl h
    · split at h
      · cases h
      · rename_i skip hskip
        refine hstep _ ?_ h
        split <;> rfl

theorem readData_progress (r : MemRow) (w : World) :
    (r.readData w).2.2.progress = w.progress := by
  unfold MemRow.readData
  simp only
  split <;> rfl

/-- The events of the verification loop: one for every non-empty row it meets before
it stops, with the running count over the divisor. -/
theorem verifyLoop_progress (c : Consts) (d : Driver) (family : Family)
    (nonEmptyProgramRows : Nat) :
    ∀ (pairs : List (MemRow × MemRow)) (count : Nat) (w : World) (rows : List MemRow)
      (count' : Nat) (verifyOK : Bool) (w' : World),
      verifyLoop c d family nonEmptyProgramRows pairs count w
        = some (rows, count', verifyOK, w') →
      ∃ m, m ≤ countNonEmpty (pairs.map Prod.fst)
        ∧ w'.progress = w.progress ++
          (if d.progressCallback = true then
            (List.range m).map fun j =>
              (Status.Verifying, 100 * (count + j + 1) / nonEmptyProgramRows)
          else []) := by
  intro pairs
  induction pairs with
  | nil =>
    intro count w rows count' verifyOK w' h
    simp only [verifyLoop, Option.some.injEq, Prod.mk.injEq] at h
    refine ⟨0, Nat.zero_le _, ?_⟩
    simp [← h.2.2.2]
  | cons pair rest ih =>
    obtain ⟨row, snapshot⟩ := pair
    intro count w rows count' verifyOK w' h
    unfold verifyLoop at h
    simp only at h
    -- the event of this row, if any
    have hfirst : ∀ w1 : World,
        w1.progress = (if (!row.isEmpty) = true then
            giveProgress d w Status.Verifying
              (100 * (if (!row.isEmpty) = true then count + 1 else count)
                / nonEmptyProgramRows)
          else w).progress →
        ∀ m, m ≤ countNonEmpty (rest.map Prod.fst) →
        w'.progress = w1.progress ++
          (if d.progressCallback = true then
            (List.range m).map fun j =>
              (Status.Verifying,
                100 * ((if (!row.isEmpty) = true then count + 1 else count) + j + 1)
                  / nonEmptyProgramRows)
          else []) →
        ∃ m, m ≤ countNonEmpty (((row, snapshot) :: rest).map Prod.fst)
          ∧ w'.progress = w.progress ++
            (if d.progressCallback = true then
              (List.range m).map fun j =>
                (Status.Verifying, 100 * (count + j + 1) / nonEmptyProgramRows)
            else []) := by
      intro w1 hw1 m hm hw'
      rw [hw', hw1]
      cases hempty : row.isEmpty
      · refine ⟨m + 1, ?_, ?_⟩
        · have hc : countNonEmpty (row :: rest.map Prod.fst)
              = countNonEmpty (rest.map Prod.fst) + 1 := by
            simp [countNonEmpty, hempty]
          rw [List.map_cons, hc]
          omega
        · simp only [Bool.not_false, if_true, giveProgress_progress]
          rw [List.append_assoc]
          congr 1
          split
          · rw [List.range_succ_eq_map, List.map_cons, List.map_map]
            simp only [List.singleton_append, Nat.add_zero, List.cons.injEq, true_and]
            apply List.map_congr_left
            intro j _
            simp only [Function.comp, Nat.succ_eq_add_one]
            congr 3
            omega
          · rfl
      · refine ⟨m, ?_, ?_⟩
        · have hc : countNonEmpty (row :: rest.map Prod.fst)
              = countNonEmpty (rest.map Prod.fst) := by
            simp [countNonEmpty, hempty]
          rw [List.map_cons, hc]
          exact hm
        · simp only [Bool.not_true, Bool.false_eq_true, if_false]
    split at h
    · cases h
    · split at h
      · cases h
      · rename_i rows1 n1 ok1 w1 hrec
        simp only [Option.some.injEq, Prod.mk.injEq] at h
        obtain ⟨m, hm, hp⟩ := ih _ _ _ _ _ _ hrec
        rw [h.2.2.2] at hp
        exact hfirst _ rfl m hm hp
    · split at h
      · rename_i row1 w1 hread
        have hw1 : w1.progress = (if (!row.isEmpty) = true then
            giveProgress d w Status.Verifying
              (100 * (if (!row.isEmpty) = true then count + 1 else count)
                / nonEmptyProgramRows)
          else w).progress := by
          have := readData_progress row (if (!row.isEmpty) = true then
            giveProgress d w Status.Verifying
              (100 * (if (!row.isEmpty) = true then count + 1 else count)
                / nonEmptyProgramRows)
            else w)
          rw [hread] at this
          exact this
        split at h
        · simp only [Option.some.injEq, Prod.mk.injEq] at h
          refine hfirst w1 hw1 0 (Nat.zero_le _) ?_
          rw [← h.2.2.2]
          simp
        · split at h
          · cases h
          · rename_i rows1 n1 ok1 w2 hrec
            simp only [Option.some.injEq, Prod.mk.injEq] at h
            obtain ⟨m, hm, hp⟩ := ih _ _ _ _ _ _ hrec
            rw [h.2.2.2] at hp
            exact hfirst w1 hw1 m hm hp
      · rename_i row1 w1 hread
        have hw1 : w1.progress = (if (!row.isEmpty) = true then
            giveProgress d w Status.Verifying
              (100 * (if (!row.isEmpty) = true then count + 1 else count)
                / nonEmptyProgramRows)
          else w).progress := by
          have := readData_progress row (if (!row.isEmpty) = true then
            giveProgress d w Status.Verifying
              (100 * (if (!row.isEmpty) = true then count + 1 else count)
                / nonEmptyProgramRows)
            else w)
          rw [hread] at this
          exact this
        split at h
        · cases h
        · rename_i rows1 n1 ok1 w2 hrec
          simp only [Option.some.injEq, Prod.mk.injEq] at h
          obtain ⟨m, hm, hp⟩ := ih _ _ _ _ _ _ hrec
          rw [h.2.2.2] at hp
          exact hfirst w1 hw1 m hm hp

theorem getVersion_progress (c : Consts) (d : Driver) (w : World) :
    (getVersion c d w).2.2.progress = w.progress := by
  unfold getVersion
  split
  · rfl
  · simp only [World.write, World.readByte]
    split
    · rfl
    · split <;> rfl

/-- The first `PM_SIZE` rows of a fresh image are program rows. -/
theorem buildMemory_take_program (c : Consts) (family : Family) (rowsize : Nat) :
    ∀ k ∈ ((buildMemory c family rowsize).map rowKey).take c.PM_SIZE,
      k.1 = MemType.Program := by
  intro k hk
  unfold buildMemory at hk
  rw [List.append_assoc, List.map_append, List.take_left' (by simp)] at hk
  simp only [List.map_map, List.mem_map, List.mem_range, Function.comp] at hk
  obtain ⟨row, -, rfl⟩ := hk
  rfl

/-- Rows with the keys of a fresh image: the non-empty ones among the first
`PM_SIZE` are counted by the divisor of the verification. -/
theorem countNonEmpty_take_le (c : Consts) (family : Family) (rowsize : Nat)
    (rows : List MemRow)
    (hkeys : rows.map rowKey = (buildMemory c family rowsize).map rowKey) :
    countNonEmpty (rows.take c.PM_SIZE)
      ≤ (rows.filter fun row =>
          !row.isEmpty && decide (row.getType = MemType.Program)).length := by
  have hprog : ∀ row ∈ rows.take c.PM_SIZE, row.getType = MemType.Program := by
    intro row hrow
    have : rowKey row ∈ (rows.map rowKey).take c.PM_SIZE := by
      rw [← List.map_take]
      exact List.mem_map_of_mem _ hrow
    rw [hkeys] at this
    exact buildMemory_take_program c family rowsize _ this
  have heq : (rows.take c.PM_SIZE).filter (fun row => !row.isEmpty)
      = (rows.take c.PM_SIZE).filter (fun row =>
          !row.isEmpty && decide (row.getType = MemType.Program)) := by
    apply List.filter_congr
    intro row hrow
    simp [hprog row hrow]
  unfold countNonEmpty
  rw [heq]
  exact ((List.take_sublist _ _).filter _).length_le

theorem zip_self_map_fst (rows : List MemRow) :
    (rows.zip rows).map Prod.fst = rows :=
  List.map_fst_zip rows rows (Nat.le_refl _)

theorem resendConfig_progress :
    ∀ (rows : List MemRow) (w : World), (resendConfig rows w).progress = w.progress := by
  intro rows
  induction rows with
  | nil => intro w; rfl
  | cons row rest ih =>
    intro w
    unfold resendConfig
    split
    · rw [ih]
      rfl
    · exact ih w

/-- The events of the end of the stage: an `Error` event after a failed verification,
the completion event after a successful one. -/
theorem stage_tail_progress (d : Driver) (w : World) (rows : List MemRow)
    (verifyOK : Bool) :
    (if verifyOK = true then
        giveProgress d
          (if d.firmwareVersion = 0 ∨ d.configBitsEnabled = true then
            (if d.configBitsEnabled = true then
              resendConfig rows
                (if (!verifyOK) = true then giveProgress d w Status.Error 0 else w)
            else (if (!verifyOK) = true then giveProgress d w Status.Error 0 else w)).write
              (Wire.cmd Command.RESET)
          else
            (if d.configBitsEnabled = true then
              resendConfig rows
                (if (!verifyOK) = true then giveProgress d w Status.Error 0 else w)
            else (if (!verifyOK) = true then giveProgress d w Status.Error 0 else w)).write
              (Wire.cmd Command.POR_RESET))
          Status.Idle 100
      else
        (if d.firmwareVersion = 0 ∨ d.configBitsEnabled = true then
          (if d.configBitsEnabled = true then
            resendConfig rows
              (if (!verifyOK) = true then giveProgress d w Status.Error 0 else w)
          else (if (!verifyOK) = true then giveProgress d w Status.Error 0 else w)).write
            (Wire.cmd Command.RESET)
        else
          (if d.configBitsEnabled = true then
            resendConfig rows
              (if (!verifyOK) = true then giveProgress d w Status.Error 0 else w)
          else (if (!verifyOK) = true then giveProgress d w Status.Error 0 else w)).write
            (Wire.cmd Command.POR_RESET))).progress
      = w.progress ++
        (if d.progressCallback = true then
          (if verifyOK = true then [(Status.Idle, 100)] else [(Status.Error, 0)])
        else []) := by
  have hwrite : ∀ (w0 : World) (x : Wire), (w0.write x).progress = w0.progress :=
    fun _ _ => rfl
  cases verifyOK <;> cases hc : d.configBitsEnabled <;>
    by_cases hz : d.firmwareVersion = 0 <;>
    simp [hz, hwrite, resendConfig_progress, giveProgress_progress]

/-- The events of the stage after parsing: the programming events, the verifying
events, then at most an `Error` event and a completion event. -/
theorem programStage_progress (c : Consts) (d : Driver) (w : World) (family : Family)
    (dev dev' : PicDevice) (ppMemory : List MemRow) (hcur : d.current = some dev') :
    ∃ m tail, m ≤ countNonEmpty ((ppMemory.map MemRow.formatData).take c.PM_SIZE)
      ∧ (programStage c d w family dev ppMemory).2.2.progress = w.progress ++
          (if d.progressCallback = true ∧ 3 ≤ d.firmwareVersion then
            ((List.range (countNonEmpty (ppMemory.map MemRow.formatData))).map fun j =>
              (Status.Programming,
                100 * (j + 1) / countNonEmpty (ppMemory.map MemRow.formatData)))
            ++ ((List.range m).map fun j =>
              (Status.Verifying, 100 * (j + 1) /
                ((ppMemory.map MemRow.formatData).filter fun row =>
                  !row.isEmpty && decide (row.getType = MemType.Program)).length))
            ++ tail
          else [])
      ∧ ∀ e ∈ tail, e = (Status.Error, 0) ∨ e = (Status.Idle, 100) := by
  unfold programStage
  split
  · rename_i hlt
    refine ⟨0, [], Nat.zero_le _, ?_, by simp⟩
    have : ¬ (d.progressCallback = true ∧ 3 ≤ d.firmwareVersion) := by omega
    simp [this, World.write, World.readBytes]
  · rename_i hge
    have hge : 3 ≤ d.firmwareVersion := Nat.le_of_not_lt hge
    simp only
    split
    · rename_i hnone
      exact absurd hnone (programLoop_ne_none c d family _ dev' hcur _ _ _)
    · rename_i count1 w1 hprog
      have hp1 := programLoop_progress c d family _ _ _ _ _ _ hprog
      split
      · rename_i hnone
        exact absurd hnone (verifyLoop_ne_none c d family _ dev' hcur _ _ _)
      · rename_i rows count2 verifyOK w2 hver
        obtain ⟨m, hm, hp2⟩ := verifyLoop_progress c d family _ _ _ _ _ _ _ _ hver
        rw [zip_self_map_fst] at hm
        have htail := stage_tail_progress d w2
          (rows ++ (ppMemory.map MemRow.formatData).drop c.PM_SIZE) verifyOK
        refine ⟨m, (if verifyOK = true then [(Status.Idle, 100)] else [(Status.Error, 0)]),
          hm, ?_, ?_⟩
        · refine Eq.trans htail ?_
          rw [hp2, hp1]
          cases hcb : d.progressCallback
          · simp
          · simp only [hge, and_self, if_true, Nat.zero_add, List.append_assoc]
            rfl
        · intro e he
          split at he
          · right
            simpa using he
          · left
            simpa using he

theorem programmingEvents_mem (n : Nat) (e : Status × Nat) (he : e ∈ programmingEvents n) :
    e.1 = Status.Programming ∧ e.2 ≤ 100 ∧ 0 < n := by
  simp only [programmingEvents, List.mem_map, List.mem_range] at he
  obtain ⟨j, hj, rfl⟩ := he
  refine ⟨rfl, ?_, by omega⟩
  apply Nat.div_le_of_le_mul
  have : j + 1 ≤ n := hj
  calc 100 * (j + 1) ≤ 100 * n := Nat.mul_le_mul_left _ this
    _ = n * 100 := Nat.mul_comm _ _

theorem verifyingEvents_mem (m total : Nat) (hm : m ≤ total) (e : Status × Nat)
    (he : e ∈ verifyingEvents m total) :
    e.1 = Status.Verifying ∧ e.2 ≤ 100 ∧ 0 < total := by
  simp only [verifyingEvents, List.mem_map, List.mem_range] at he
  obtain ⟨j, hj, rfl⟩ := he
  refine ⟨rfl, ?_, by omega⟩
  apply Nat.div_le_of_le_mul
  have : j + 1 ≤ total := by omega
  calc 100 * (j + 1) ≤ 100 * total := Nat.mul_le_mul_left _ this
    _ = total * 100 := Nat.mul_comm _ _

theorem percents_sorted (status : Status) (m total : Nat) :
    List.Pairwise (fun a b => a ≤ b)
      (((List.range m).map fun j => (status, 100 * (j + 1) / total)).map Prod.snd) := by
  rw [List.map_map, List.pairwise_map]
  apply List.Pairwise.imp _ (List.pairwise_lt_range m)
  intro a b hab
  simp only [Function.comp]
  apply Nat.div_le_div_right
  omega

theorem programmingEvents_last (n : Nat) (hn : 0 < n) :
    (programmingEvents n).getLast? = some (Status.Programming, 100) := by
  unfold programmingEvents
  rw [List.getLast?_map, List.getLast?_range]
  have hne : ¬ n = 0 := by omega
  simp only [hne, if_false, Option.map_some']
  have h1 : n - 1 + 1 = n := by omega
  rw [h1, Nat.mul_div_cancel _ hn]

/-- The divisors of the two progress computations are positive wherever a division
is made: at a non-empty row of the image, and at a non-empty row among the first
`PM_SIZE` rows. -/
theorem divisors_pos (c : Consts) (d : Driver) (family : Family) (dev : PicDevice)
    (lines : List String) (extAddr rowsize : Nat) (ppMemory : List MemRow)
    (h : parseLines c d family dev lines extAddr (buildMemory c family rowsize)
      = some (Except.ok ppMemory)) :
    (∀ row ∈ ppMemory.map MemRow.formatData, row.isEmpty = false →
      0 < countNonEmpty (ppMemory.map MemRow.formatData))
    ∧ (∀ row ∈ (ppMemory.map MemRow.formatData).take c.PM_SIZE, row.isEmpty = false →
      0 < ((ppMemory.map MemRow.formatData).filter fun row =>
        !row.isEmpty && decide (row.getType = MemType.Program)).length) := by
  have hkeys : (ppMemory.map MemRow.formatData).map rowKey
      = (buildMemory c family rowsize).map rowKey := by
    rw [← parseLines_rowKey c d family dev _ _ _ _ h, List.map_map]
    apply List.map_congr_left
    intro r _
    exact formatData_rowKey r
  constructor
  · intro row hrow hne
    apply List.length_pos_of_mem (a := row)
    simp [List.mem_filter, hrow, hne]
  · intro row hrow hne
    have h1 : 0 < countNonEmpty ((ppMemory.map MemRow.formatData).take c.PM_SIZE) := by
      apply List.length_pos_of_mem (a := row)
      simp only [List.mem_filter, hne, Bool.not_false, and_true]
      exact hrow
    exact Nat.lt_of_lt_of_le h1 (countNonEmpty_take_le c family rowsize _ hkeys)

/-- C19.  The progress events of one `programHexFile` call are, in this order, the
programming events `100 * k / N` for `k = 1 .. N`, the verifying events
`100 * k / M` for `k = 1 .. m` with `m <= M`, and then at most an `Error` event and
the completion event.  Every programming or verifying event carries a percent of at
most 100, the percents of each phase are non-decreasing, the last programming event
carries 100, and the divisors (the number of non-empty rows and the number of
non-empty program rows of the image) are positive at every division. -/
theorem progress_events :
    (∀ (c : Consts) (d : Driver) (w : World) (hexFile : Option (List String)),
      ∃ N M m tail, m ≤ M
        ∧ (programHexFile c d w hexFile).2.2.progress
            = w.progress ++ programmingEvents N ++ verifyingEvents m M ++ tail
        ∧ ∀ e ∈ tail, e = (Status.Error, 0) ∨ e = (Status.Idle, 100))
    ∧ (∀ (N : Nat) (e : Status × Nat), e ∈ programmingEvents N →
        e.1 = Status.Programming ∧ e.2 ≤ 100 ∧ 0 < N)
    ∧ (∀ (m M : Nat) (e : Status × Nat), m ≤ M → e ∈ verifyingEvents m M →
        e.1 = Status.Verifying ∧ e.2 ≤ 100 ∧ 0 < M)
    ∧ (∀ N : Nat, List.Pairwise (fun a b => a ≤ b) ((programmingEvents N).map Prod.snd))
    ∧ (∀ m M : Nat, List.Pairwise (fun a b => a ≤ b) ((verifyingEvents m M).map Prod.snd))
    ∧ (∀ N : Nat, 0 < N → (programmingEvents N).getLast? = some (Status.Programming, 100))
    ∧ (∀ (c : Consts) (d : Driver) (family : Family) (dev : PicDevice)
        (lines : List String) (extAddr rowsize : Nat) (ppMemory : List MemRow),
        parseLines c d family dev lines extAddr (buildMemory c family rowsize)
          = some (Except.ok ppMemory) →
        (∀ row ∈ ppMemory.map MemRow.formatData, row.isEmpty = false →
          0 < countNonEmpty (ppMemory.map MemRow.formatData))
        ∧ (∀ row ∈ (ppMemory.map MemRow.formatData).take c.PM_SIZE,
            row.isEmpty = false →
            0 < ((ppMemory.map MemRow.formatData).filter fun row =>
              !row.isEmpty && decide (row.getType = MemType.Program)).length))
    ∧ (programHexFile sampleConsts (sampleDriver Family.PIC24H) (sampleWorld [3, 1, 1])
        (some [":021800001234A0", ":021C0000ABCD00"])).2.2.progress
        = programmingEvents 2 ++ verifyingEvents 2 2 ++ [(Status.Idle, 100)]
    ∧ programmingEvents 2 = [(Status.Programming, 50), (Status.Programming, 100)] := by
  refine ⟨?_, ?_, ?_, ?_, ?_, ?_, ?_, by decide, by decide⟩
  · intro c d w hexFile
    have hnone : ∀ w1 : World, w1.progress = w.progress →
        ∃ N M m tail, m ≤ M
          ∧ w1.progress = w.progress ++ programmingEvents N ++ verifyingEvents m M ++ tail
          ∧ ∀ e ∈ tail, e = (Status.Error, 0) ∨ e = (Status.Idle, 100) := by
      intro w1 h1
      exact ⟨0, 0, 0, [], Nat.le_refl _, by simp [h1, programmingEvents, verifyingEvents],
        by simp⟩
    rcases programHexFile_cases c d w hexFile with
      ⟨-, hr⟩ | ⟨dev, d1, w1, -, hgv, hcur1, -,
        ⟨-, hr⟩ | ⟨lines, why, -, -, hr⟩ | ⟨lines, mem, -, hparse, hr⟩⟩
    · rw [hr]
      exact hnone w rfl
    · have hw1 : w1.progress = w.progress := by
        have := getVersion_progress c d w
        rw [hgv] at this
        exact this
      rw [hr]
      exact hnone w1 hw1
    · have hw1 : w1.progress = w.progress := by
        have := getVersion_progress c d w
        rw [hgv] at this
        exact this
      rw [hr]
      exact hnone w1 hw1
    · have hw1 : w1.progress = w.progress := by
        have := getVersion_progress c d w
        rw [hgv] at this
        exact this
      rw [hr]
      obtain ⟨m, tail, hm, hp, htail⟩ :=
        programStage_progress c d1 w1 dev.family dev dev mem hcur1
      by_cases hcond : d1.progressCallback = true ∧ 3 ≤ d1.firmwareVersion
      · rw [if_pos hcond] at hp
        have hkeys : (mem.map MemRow.formatData).map rowKey
            = (buildMemory c dev.family (sessionRowSize c dev)).map rowKey := by
          rw [← parseLines_rowKey c d1 dev.family dev _ _ _ _ hparse, List.map_map]
          apply List.map_congr_left
          intro r _
          exact formatData_rowKey r
        refine ⟨countNonEmpty (mem.map MemRow.formatData),
          ((mem.map MemRow.formatData).filter fun row =>
            !row.isEmpty && decide (row.getType = MemType.Program)).length,
          m, tail,
          Nat.le_trans hm (countNonEmpty_take_le c dev.family _ _ hkeys), ?_, htail⟩
        rw [hp, hw1]
        simp only [programmingEvents, verifyingEvents, List.append_assoc]
      · rw [if_neg hcond] at hp
        apply hnone
        rw [hp, hw1]
        simp
  · intro N e he
    exact programmingEvents_mem N e he
  · intro m M e hm he
    exact verifyingEvents_mem m M hm e he
  · intro N
    exact percents_sorted Status.Programming N N
  · intro m M
    exact percents_sorted Status.Verifying m M
  · intro N hN
    exact programmingEvents_last N hN
  · intro c d family dev lines extAddr rowsize ppMemory h
    exact divisors_pos c d family dev lines extAddr rowsize ppMemory h

/-! ## Data records and the image -/

/-- A data record that `parseLine` processes without an abort: the offset is handed
on, the byte count is at most 126, the page check passed at the address of the first
word, the words inserted are the next `(n + 1) / 2` words of the line at consecutive
addresses, and the image after the record is the image before it with these words
inserted. -/
theorem parseLine_data_ok (c : Consts) (d : Driver) (family : Family) (dev : PicDevice)
    (line : List Char) (e : Nat) (rows : List MemRow) (n r : Nat) (s : List Char)
    (e' : Nat) (rows' : List MemRow)
    (hh : parseHeader line = some (n, r, 0, s))
    (hok : parseLine c d family dev line e rows = some (Except.ok (e', rows'))) :
    e' = e ∧ n ≤ 126 ∧ checkAddressClash ((r + e) % 2 ^ 32 / 2) family = true
    ∧ takeWords ((n + 1) / 2) ((r + e) % 2 ^ 32 / 2) s
        = some (parseLineLog c d family dev line e rows)
    ∧ rows' = replay (parseLineLog c d family dev line e rows) rows := by
  have hrep := parseLine_replay c d family dev line e rows e' rows' hok
  rw [parseLine_of_header c d family dev line e rows n r 0 s hh] at hok
  simp only [if_true] at hok
  split at hok
  · cases hok
  · rename_i hpage
    have hpage' : checkAddressClash ((r + e) % 2 ^ 32 / 2) family = true := by
      simpa using hpage
    have hlog : parseLineLog c d family dev line e rows
        = wordLoopLog c d family dev n (s.length + 1) 0 ((r + e) % 2 ^ 32 / 2) s rows := by
      rw [parseLineLog_of_header c d family dev line e rows n r 0 s hh]
      simp only [if_true, hpage', Bool.not_true, Bool.false_eq_true, if_false]
    split at hok
    · cases hok
    · cases hok
    · rename_i rows1 hloop
      simp only [Option.some.injEq, Except.ok.injEq, Prod.mk.injEq] at hok
      have hn : n ≤ 126 := by
        by_contra hgt
        exact wordLoop_never_ok c d family dev n (by omega) _ 0 _ _ _ rows1 (by decide)
          (by decide) hloop
      have htake := wordLoop_bounded c d family dev n hn ((n + 1) / 2) 0 (s.length + 1)
        ((r + e) % 2 ^ 32 / 2) s rows rows1 (by omega) hloop
      simp only [Nat.mul_zero] at htake
      rw [hlog]
      rw [hlog] at hrep
      exact ⟨hok.1.symm, hn, hpage', htake, hrep⟩

/-- The line loop over a list of lines that is cut in two: the second part is
entered with the offset and the image the first part left. -/
theorem parseLines_append (c : Consts) (d : Driver) (family : Family) (dev : PicDevice) :
    ∀ (pre post : List String) (e : Nat) (rows mem : List MemRow),
      parseLines c d family dev (pre ++ post) e rows = some (Except.ok mem) →
      ∃ rows1, parseLines c d family dev pre e rows = some (Except.ok rows1)
        ∧ parseLines c d family dev post (parseLinesExt c d family dev pre e rows) rows1
            = some (Except.ok mem) := by
  intro pre
  induction pre with
  | nil =>
    intro post e rows mem h
    exact ⟨rows, rfl, h⟩
  | cons line rest ih =>
    intro post e rows mem h
    rw [List.cons_append] at h
    by_cases hempty : line.data = []
    · simp only [parseLines, parseLinesExt, hempty, if_true] at h ⊢
      exact ih post e rows mem h
    · simp only [parseLines, parseLinesExt, hempty, if_false] at h ⊢
      cases hl : parseLine c d family dev line.data e rows with
      | none => simp [hl] at h
      | some res =>
        cases res with
        | error why => simp [hl] at h
        | ok pr =>
          obtain ⟨e1, rows1⟩ := pr
          simp only [hl] at h ⊢
          exact ih post e1 rows1 mem h

/-- A line loop that ends without an abort has processed its first line without an
abort, and went on with the offset and the image that line left. -/
theorem parseLines_cons_ok (c : Consts) (d : Driver) (family : Family) (dev : PicDevice)
    (line : String) (post : List String) (e : Nat) (rows mem : List MemRow)
    (hne : line.data ≠ [])
    (h : parseLines c d family dev (line :: post) e rows = some (Except.ok mem)) :
    ∃ e1 rows1, parseLine c d family dev line.data e rows = some (Except.ok (e1, rows1))
      ∧ parseLines c d family dev post e1 rows1 = some (Except.ok mem) := by
  simp only [parseLines, hne, if_false] at h
  cases hl : parseLine c d family dev line.data e rows with
  | none => simp [hl] at h
  | some res =>
    cases res with
    | error why => simp [hl] at h
    | ok pr =>
      obtain ⟨e1, rows1⟩ := pr
      simp only [hl] at h
      exact ⟨e1, rows1, rfl, h⟩

/-! ## The clash checks and the image -/

/-- C16.  The image `programHexFile` hands to the programming stage is the fresh
image with the inserted words put in, and every one of these words passed, at its own
word address and with its own data, the reserved-word check and the
configuration-region check.  For every data record processed without an abort, the
words inserted are all the `(n + 1) / 2` words of the line, each at its own address,
each one passed both checks, and the image after the record holds exactly these
words more.  A word of a data record for which one of the two checks reports a clash
at its own address, wherever in the record it lies, ends `programHexFile` by the
abort of the parse phase; the row loop stops at the clash before any `insertData`.
The page check is made once per data record, at the address of its first word: a
clash there aborts the record, and the first word of a processed record passed it. -/
theorem insertedWords_checked :
    (∀ (c : Consts) (d : Driver) (w : World) (lines : List String) (dev : PicDevice),
        d.current = some dev →
        (∃ why, programHexFile c d w (some lines)
            = (Exit.parseAbort why, (getVersion c d w).2))
        ∨ ∃ ppMemory,
            parseLines c (getVersion c d w).2.1 dev.family dev lines 0
                (buildMemory c dev.family (sessionRowSize c dev)) = some (Except.ok ppMemory)
            ∧ programHexFile c d w (some lines)
                = programStage c (getVersion c d w).2.1 (getVersion c d w).2.2 dev.family dev
                    ppMemory
            ∧ ppMemory = replay (insertedWords c d w (some lines))
                (buildMemory c dev.family (sessionRowSize c dev))
            ∧ ∀ p ∈ insertedWords c d w (some lines),
                checkAddressClashData c p.1 p.2 dev.family = true
                ∧ checkAddressClashConfig (getVersion c d w).2.1 p.1 p.2 dev.family
                    dev.configPage dev.configWord = true)
    ∧ (∀ (c : Consts) (d : Driver) (family : Family) (dev : PicDevice) (line : List Char)
        (e : Nat) (rows : List MemRow) (n r : Nat) (s : List Char) (e' : Nat)
        (rows' : List MemRow),
        parseHeader line = some (n, r, 0, s) →
        parseLine c d family dev line e rows = some (Except.ok (e', rows')) →
        ∃ words, takeWords ((n + 1) / 2) ((r + e) % 2 ^ 32 / 2) s = some words
          ∧ words = parseLineLog c d family dev line e rows
          ∧ rows' = replay words rows
          ∧ checkAddressClash ((r + e) % 2 ^ 32 / 2) family = true
          ∧ ∀ p ∈ words,
              checkAddressClashData c p.1 p.2 family = true
              ∧ checkAddressClashConfig d p.1 p.2 family dev.configPage dev.configWord
                  = true)
    ∧ (∀ (c : Consts) (d : Driver) (w : World) (pre : List String) (line : String)
        (post : List String) (dev : PicDevice) (n r : Nat) (s : List Char)
        (words : List (Nat × Nat)) (p : Nat × Nat),
        d.current = some dev →
        parseHeader line.data = some (n, r, 0, s) →
        takeWords ((n + 1) / 2)
          ((r + parseLinesExt c (getVersion c d w).2.1 dev.family dev pre 0
              (buildMemory c dev.family (sessionRowSize c dev))) % 2 ^ 32 / 2) s
          = some words →
        p ∈ words →
        (checkAddressClashData c p.1 p.2 dev.family = false
          ∨ checkAddressClashConfig (getVersion c d w).2.1 p.1 p.2 dev.family
              dev.configPage dev.configWord = false) →
        ∃ why, programHexFile c d w (some (pre ++ line :: post))
          = (Exit.parseAbort why, (getVersion c d w).2))
    ∧ (∀ (c : Consts) (d : Driver) (family : Family) (dev : PicDevice) (line : List Char)
        (e : Nat) (rows : List MemRow) (n r : Nat) (s : List Char),
        parseHeader line = some (n, r, 0, s) →
        checkAddressClash ((r + e) % 2 ^ 32 / 2) family = false →
        parseLine c d family dev line e rows = some (Except.error ParseAbort.pageClash))
    ∧ (∀ (c : Consts) (d : Driver) (family : Family) (dev : PicDevice) (address data : Nat)
        (row : MemRow) (rest : List MemRow),
        (checkAddressClashData c address data family = false →
          insertLoop c d family dev address data (row :: rest)
            = Except.error ParseAbort.dataClash)
        ∧ (checkAddressClashData c address data family = true →
          checkAddressClashConfig d address data family dev.configPage dev.configWord
            = false →
          insertLoop c d family dev address data (row :: rest)
            = Except.error ParseAbort.configClash))
    ∧ (programHexFile sampleConsts (sampleDriver Family.dsPIC30F) (sampleWorld [3, 1, 1])
        (some [":0403FE00FFFF0000"])).1 = Exit.parseAbort ParseAbort.dataClash
    ∧ (programHexFile sampleConsts (sampleDriver Family.dsPIC30F) (sampleWorld [3, 1, 1])
        (some [":0403FE00FFFF0000"])).2.2.tx = [Wire.cmd Command.READ_VERSION]
    ∧ checkAddressClashData sampleConsts 0x200 0x0000 Family.dsPIC30F = false
    ∧ parseLine sampleConsts sampleAfterNack Family.PIC24F (sampleDevice Family.PIC24F)
        ":049FFE00FFFF0000".data 0 [MemRow.create MemType.Program 0x4FF0 0 Family.PIC24F 32]
        = some (Except.error ParseAbort.configClash)
    ∧ checkAddressClashConfig sampleAfterNack 0x5000 0x0000 Family.PIC24F 0x5000 0x5400
        = false := by
  refine ⟨?_, ?_, ?_, ?_, ?_, by decide, by decide, by decide, by rfl, by decide⟩
  · intro c d w lines dev hcur
    rcases programHexFile_cases c d w (some lines) with
      ⟨hnone, -⟩ | ⟨dev1, d1, w1, hcur', hgv, hcur1, -,
        ⟨hf, -⟩ | ⟨lines', why, -, -, hr⟩ | ⟨lines', mem, hl, hparse, hr⟩⟩
    · rw [hnone] at hcur
      cases hcur
    · cases hf
    · left
      exact ⟨why, by rw [hr, hgv]⟩
    · right
      rw [hcur] at hcur'
      cases hcur'
      cases hl
      have hlog : insertedWords c d w (some lines)
          = parseLinesLog c d1 dev.family dev lines 0
              (buildMemory c dev.family (sessionRowSize c dev)) := by
        simp only [insertedWords, hgv, hcur1]
      rw [hgv, hlog]
      refine ⟨mem, hparse, hr, ?_, ?_⟩
      · exact parseLines_replay c d1 dev.family dev _ _ _ _ hparse
      · intro p hp
        exact parseLinesLog_checked c d1 dev.family dev _ _ _ p hp
  · intro c d family dev line e rows n r s e' rows' hh hok
    obtain ⟨-, -, hpage, htake, hrep⟩ :=
      parseLine_data_ok c d family dev line e rows n r s e' rows' hh hok
    refine ⟨_, htake, rfl, hrep, hpage, ?_⟩
    intro p hp
    exact parseLineLog_checked c d family dev line e rows p hp
  · intro c d w pre line post dev n r s words p hcur hh htake hp hclash
    rcases programHexFile_cases c d w (some (pre ++ line :: post)) with
      ⟨hnone, -⟩ | ⟨dev1, d1, w1, hcur', hgv, hcur1, -,
        ⟨hf, -⟩ | ⟨lines', why, -, -, hr⟩ | ⟨lines', mem, hl, hparse, -⟩⟩
    · rw [hnone] at hcur
      cases hcur
    · cases hf
    · exact ⟨why, by rw [hr, hgv]⟩
    · exfalso
      rw [hcur] at hcur'
      cases hcur'
      cases hl
      rw [hgv] at htake hclash
      simp only at htake hclash
      obtain ⟨rows1, -, hrest⟩ := parseLines_append c d1 dev.family dev pre (line :: post)
        0 _ mem hparse
      obtain ⟨e1, rows2, hline, -⟩ := parseLines_cons_ok c d1 dev.family dev line post _
        rows1 mem (parseHeader_ne_nil _ _ hh) hrest
      obtain ⟨-, -, -, htake', -⟩ :=
        parseLine_data_ok c d1 dev.family dev line.data _ rows1 n r s e1 rows2 hh hline
      rw [htake] at htake'
      have hw := Option.some.inj htake'
      rw [hw] at hp
      have hchk := parseLineLog_checked c d1 dev.family dev line.data _ rows1 p hp
      rcases hclash with h | h
      · rw [hchk.1] at h
        cases h
      · rw [hchk.2] at h
        cases h
  · intro c d family dev line e rows n r s hh hpage
    rw [parseLine_of_header c d family dev line e rows n r 0 s hh]
    simp only [if_true, hpage, Bool.not_false]
  · intro c d family dev address data row rest
    exact insertLoop_clash c d family dev address data row rest

/-- The counterexample of C16: on a dsPIC30F the record `:0407FE00FFFFFFFF` puts its
second word at word address `0x400`, where the page check reports a clash; the word
is inserted (the row from `0x400` on is written to in the image) and the call runs to
its end. -/
theorem insertedWords_page_unchecked :
    insertedWords sampleConsts (sampleDriver Family.dsPIC30F) (sampleWorld [3, 1, 1])
        (some [":0407FE00FFFFFFFF"]) = [(0x3FF, 0xFFFF), (0x400, 0xFFFF)]
    ∧ checkAddressClash 0x400 Family.dsPIC30F = false
    ∧ (programHexFile sampleConsts (sampleDriver Family.dsPIC30F) (sampleWorld [3, 1, 1])
        (some [":0407FE00FFFFFFFF"])).1 = Exit.returned
    ∧ parseLines sampleConsts (sampleDriver Family.dsPIC30F) Family.dsPIC30F
        (sampleDevice Family.dsPIC30F) [":0407FE00FFFFFFFF"] 0
        (buildMemory sampleConsts Family.dsPIC30F 512)
        = some (Except.ok (replay [(0x3FF, 0xFFFF), (0x400, 0xFFFF)]
            (buildMemory sampleConsts Family.dsPIC30F 512)))
    ∧ (replay [(0x3FF, 0xFFFF), (0x400, 0xFFFF)]
        (buildMemory sampleConsts Family.dsPIC30F 512)).map
          (fun row => (row.getAddress, row.isEmpty))
        = [(0, true), (0x200, false), (0x400, false), (0x600, true), (0x800, true),
            (0xA00, true), (0xC00, true), (0xE00, true), (0x7FF000, true),
            (0xF80000, true)] := by
  refine ⟨by decide, by decide, by decide, by rfl, by decide⟩

/-! ## The extended address and the image -/

end bullycpp
